import Mathlib

/-!
# Plaits: the `VirtualAnalogModSquare` engine

A shallow embedding of `plaits/dsp/engine/virtual_analog_mod_square.cc`.

* `float` values are read in two ways. In the main embedding they are elements of
  an arbitrary linearly ordered field `α` with a floor function (exact arithmetic);
  it runs on `ℚ` and is reasoned about on `ℝ` as well. In the section `Binary32`
  the arithmetic of `ComputeDetuning` and of the timbre controls is repeated with
  every operation rounded to binary32, as the compiled code computes it; what
  holds in exact arithmetic only is shown to fail there.
* Sample buffers (`float*`) are maps from sample index to sample value.
* The reads of the `intervals` table are fallible: an index outside the
  five-element table yields `none`.
* The oscillators, the overdrive and the pitch conversion are collaborators
  whose code is not part of this translation unit; they are parameters of
  `Render` and thread their own state explicitly.
-/

namespace Plaits

variable {α : Type} [LinearOrderedField α]

/-! ## Macros of `stmlib` used by the engine -/

/-- Modelled from the spec: the macro `CONSTRAIN(var, min, max)` of `stmlib`, whose
definition is outside this translation unit; the spec describes it as a clamp of
`var` to `[min, max]`: a value below `min` becomes `min`, a value above `max`
becomes `max`, any other value is kept. -/
def CONSTRAIN (var min max : α) : α :=
  if var < min then min else if var > max then max else var

/-- Modelled from the spec: the integral half of the macro
`MAKE_INTEGRAL_FRACTIONAL(x)` of `stmlib`, whose definition is outside this
translation unit; the spec describes it as `k = floor(m)`. -/
def MAKE_INTEGRAL [FloorRing α] (x : α) : Int := ⌊x⌋

/-- Modelled from the spec: the fractional half of the macro
`MAKE_INTEGRAL_FRACTIONAL(x)` of `stmlib`; the spec describes it as `f = m − k`. -/
def MAKE_FRACTIONAL [FloorRing α] (x : α) : α := x - (MAKE_INTEGRAL x : α)

/-! ## `ComputeDetuning` -/

/-- The table `const float intervals[5]`. -/
def intervals : List α := [0.0, 7.01, 12.01, 19.01, 24.01]

/-- A read `intervals[index]` with a signed index: `none` outside the table. -/
def readIntervals (index : Int) : Option α :=
  if 0 ≤ index then (intervals : List α)[index.toNat]? else none

/-- The smoothstep `Squash(x) = x * x * (3 - 2 * x)`. -/
def Squash (x : α) : α := x * x * (3.0 - 2.0 * x)

/-- The variable `detune` after `detune = 2.05f * detune - 1.025f` and
`CONSTRAIN(detune, -1.0f, 1.0f)`. -/
def detuneConstrained (detune : α) : α :=
  CONSTRAIN (2.05 * detune - 1.025) (-1.0) 1.0

/-- The variable `sign = detune < 0.0f ? -1.0f : 1.0f`. -/
def detuneSign (detune : α) : α :=
  if detuneConstrained detune < 0.0 then -1.0 else 1.0

/-- The variable `detune` after `detune = detune * sign * 3.9999f`. -/
def detuneScaled (detune : α) : α :=
  detuneConstrained detune * detuneSign detune * 3.9999

/-- The variable `detune_integral` declared by `MAKE_INTEGRAL_FRACTIONAL(detune)`. -/
def detune_integral [FloorRing α] (detune : α) : Int := MAKE_INTEGRAL (detuneScaled detune)

/-- The variable `detune_fractional` declared by `MAKE_INTEGRAL_FRACTIONAL(detune)`. -/
def detune_fractional [FloorRing α] (detune : α) : α := MAKE_FRACTIONAL (detuneScaled detune)

/-- The method `VirtualAnalogModSquare::ComputeDetuning`: the two table reads and the
interpolated, signed result, in exact arithmetic (`Binary32.ComputeDetuning` is the
same with every operation rounded). -/
def ComputeDetuning [FloorRing α] (detune : α) : Option α := do
  let sign := detuneSign detune
  let a ← readIntervals (detune_integral detune)
  let b ← readIntervals (detune_integral detune + 1)
  pure ((a + (b - a) * Squash (Squash (detune_fractional detune))) * sign)

/-! ## `Render` -/

/-- A sample buffer reached through a `float*`: sample index to sample value. -/
abbrev Buffer (α : Type) : Type := Nat → α

/-- Modelled from the spec: the structure `EngineParameters`, declared outside this
translation unit; the spec lists the fields `note`, `harmonics`, `timbre` and
`morph`, which are the ones `Render` reads. -/
structure EngineParameters (α : Type) where
  note : α
  harmonics : α
  timbre : α
  morph : α

/-- Modelled from the spec: the external collaborators of the engine, whose code is
outside this translation unit. Each takes its own state and returns the new state
together with the buffer it was given, as it left it.
* `NoteToFrequency note`;
* `sawRender state frequency pw shape out size`, `saw.Render(...)`;
* `squareRender state master_frequency frequency pw shape out size`,
  `square.Render<false>(...)`;
* `overdriveProcess state drive in_out size`, `overdrive_.Process(...)`. -/
structure Collaborators (α σsaw σsquare σdrive : Type) where
  NoteToFrequency : α → α
  sawRender : σsaw → α → α → α → Buffer α → Nat → σsaw × Buffer α
  squareRender : σsquare → α → α → α → α → Buffer α → Nat → σsquare × Buffer α
  overdriveProcess : σdrive → α → Buffer α → Nat → σdrive × Buffer α

/-- The data members of `VirtualAnalogModSquare` that `Init` sets up. -/
structure VirtualAnalogModSquare (α σsaw σsquare σdrive : Type) where
  square1_ : σsquare
  square2_ : σsquare
  saw1_ : σsaw
  saw2_ : σsaw
  overdrive_ : σdrive
  auxiliary_amount_ : α
  xmod_amount_ : α
  temp_buffer_ : Buffer α

/-- What a call of `Render` leaves behind: the engine, the two caller-owned buffers
and the caller-owned flag `*already_enveloped`. -/
structure RenderResult (α σsaw σsquare σdrive : Type) where
  engine : VirtualAnalogModSquare α σsaw σsquare σdrive
  out : Buffer α
  aux : Buffer α
  already_enveloped : Bool

/-- The local `saw_pw` of `Render`, after its `CONSTRAIN`, in exact arithmetic
(`Binary32.saw_pw` is the same with every operation rounded). -/
def saw_pw (parameters : EngineParameters α) : α :=
  CONSTRAIN (parameters.timbre / 2.0 * 1.1) 0.005 1.0

/-- The local `saw_shape` of `Render`, after its `CONSTRAIN`, in exact arithmetic
(`Binary32.saw_shape` is the same with every operation rounded). -/
def saw_shape (parameters : EngineParameters α) : α :=
  CONSTRAIN (10.0 - 21.0 * parameters.timbre) 0.0 1.0

/-- The local `saw_gain` of `Render`, after its `CONSTRAIN` (computed, never used). -/
def saw_gain (parameters : EngineParameters α) : α :=
  CONSTRAIN (8.0 * (1.0 - parameters.timbre)) 0.02 1.0

/-- The local `aux_drive = parameters.morph * 3.0`. -/
def aux_drive (parameters : EngineParameters α) : α := parameters.morph * 3.0

/-- The local `square_pw` of `Render`, after its `CONSTRAIN`, in exact arithmetic
(`Binary32.square_pw` is the same with every operation rounded). -/
def square_pw (parameters : EngineParameters α) : α :=
  CONSTRAIN (parameters.timbre * 1.1 / 2.0) 0.005 0.5

/-- The local `out_drive = parameters.morph * 3.0`. -/
def out_drive (parameters : EngineParameters α) : α := parameters.morph * 3.0

/-- The loop `for (i = 0; i < size; ++i) dst[i] = dst[i] * 0.5f + src[i] * 0.5f;`,
run for `size` iterations (iteration `n` follows the iterations `0 .. n-1`). -/
def crossfade (dst src : Buffer α) : Nat → Buffer α
  | 0 => dst
  | n + 1 =>
    let done := crossfade dst src n
    Function.update done n (done n * 0.5 + src n * 0.5)

/-- The method `VirtualAnalogModSquare::Render`. The preprocessor constant
`VA_VARIANT` is defined outside this translation unit and is a parameter: the
whole body sits under `#if VA_VARIANT == 2`. The flag `*already_enveloped` is
passed in with the caller's value. -/
def Render [FloorRing α] {σsaw σsquare σdrive : Type} (VA_VARIANT : Nat)
    (C : Collaborators α σsaw σsquare σdrive)
    (engine : VirtualAnalogModSquare α σsaw σsquare σdrive)
    (parameters : EngineParameters α) (out aux : Buffer α) (size : Nat)
    (already_enveloped : Bool) : Option (RenderResult α σsaw σsquare σdrive) :=
  if VA_VARIANT = 2 then do
    let auxiliary_detune ← ComputeDetuning parameters.harmonics
    let primary_f := C.NoteToFrequency parameters.note
    let auxiliary_f := C.NoteToFrequency (parameters.note + auxiliary_detune)
    let saw1 := C.sawRender engine.saw1_ primary_f (saw_pw parameters)
      (saw_shape parameters) out size
    let out := saw1.2
    let saw2 := C.sawRender engine.saw2_ auxiliary_f (saw_pw parameters)
      (saw_shape parameters) aux size
    let aux := saw2.2
    let aux := crossfade aux out size
    let drive1 := C.overdriveProcess engine.overdrive_
      (0.5 + 0.5 * aux_drive parameters) aux size
    let aux := drive1.2
    let square1 := C.squareRender engine.square1_ primary_f primary_f
      (square_pw parameters) 1.0 engine.temp_buffer_ size
    let temp_buffer := square1.2
    let square2 := C.squareRender engine.square2_ auxiliary_f auxiliary_f
      (square_pw parameters) 1.0 out size
    let out := square2.2
    let out := crossfade out temp_buffer size
    let drive2 := C.overdriveProcess drive1.1
      (0.5 + 0.5 * out_drive parameters) out size
    let out := drive2.2
    pure
      { engine :=
          { engine with
            square1_ := square1.1
            square2_ := square2.1
            saw1_ := saw1.1
            saw2_ := saw2.1
            overdrive_ := drive2.1
            temp_buffer_ := temp_buffer }
        out := out
        aux := aux
        already_enveloped := already_enveloped }
  else
    pure { engine := engine, out := out, aux := aux, already_enveloped := already_enveloped }

/-! ## Assumptions on the collaborators, and sample collaborators -/

/-- The square oscillator writes every sample of the block it renders: the first `size`
samples it leaves do not depend on what the target buffer held before. -/
def SquareRenderOverwrites {σsaw σsquare σdrive : Type}
    (C : Collaborators α σsaw σsquare σdrive) : Prop :=
  ∀ (s : σsquare) (f0 f pw shape : α) (b b' : Buffer α) (size i : Nat), i < size →
    (C.squareRender s f0 f pw shape b size).2 i = (C.squareRender s f0 f pw shape b' size).2 i

/-- The overdrive is a block function: the first `size` samples it leaves depend on the
first `size` samples it was given only. -/
def OverdriveProcessesBlock {σsaw σsquare σdrive : Type}
    (C : Collaborators α σsaw σsquare σdrive) : Prop :=
  ∀ (s : σdrive) (drive : α) (b b' : Buffer α) (size : Nat),
    (∀ i, i < size → b i = b' i) →
    ∀ i, i < size → (C.overdriveProcess s drive b size).2 i = (C.overdriveProcess s drive b' size).2 i

/-- The state the overdrive keeps between calls does not depend on the samples it
processed. -/
def OverdriveStateIgnoresSamples {σsaw σsquare σdrive : Type}
    (C : Collaborators α σsaw σsquare σdrive) : Prop :=
  ∀ (s : σdrive) (drive : α) (b b' : Buffer α) (size : Nat),
    (C.overdriveProcess s drive b size).1 = (C.overdriveProcess s drive b' size).1

/-- Sample collaborators on the rationals; every state is a count of samples. The
saw is a ramp, the square compares the ramp with the pulse width, the overdrive
scales by the drive amount. -/
def sampleCollaborators : Collaborators ℚ Nat Nat Nat where
  NoteToFrequency := fun note => note / 128
  sawRender := fun phase f pw shape out size =>
    (phase + size, fun i => if i < size then f * ((phase + i : Nat) : ℚ) + pw - shape else out i)
  squareRender := fun phase _ f pw shape out size =>
    (phase + size,
      fun i => if i < size then (if f * ((phase + i : Nat) : ℚ) < pw then shape else -shape)
        else out i)
  overdriveProcess := fun count drive in_out size =>
    (count + size, fun i => if i < size then drive * in_out i else in_out i)

/-- A second saw oscillator for the sample collaborators: a constant block. -/
def sampleFlatSaw : Nat → ℚ → ℚ → ℚ → Buffer ℚ → Nat → Nat × Buffer ℚ :=
  fun phase f _ _ out size => (phase + size, fun i => if i < size then f else out i)

/-- A sample engine: every count at zero, an all-zero scratch buffer. -/
def sampleEngine : VirtualAnalogModSquare ℚ Nat Nat Nat where
  square1_ := 0
  square2_ := 0
  saw1_ := 0
  saw2_ := 0
  overdrive_ := 0
  auxiliary_amount_ := 0
  xmod_amount_ := 0
  temp_buffer_ := fun _ => 0

/-- Sample parameters: every control at its centre, no drive. -/
def sampleParameters : EngineParameters ℚ where
  note := 60
  harmonics := 0.5
  timbre := 0.5
  morph := 0

/-- A sample buffer holding stale content. -/
def sampleStale : Buffer ℚ := fun i => 7 + (i : ℚ)

/-- The saw oscillator writes every sample of the block it renders: the first `size`
samples it leaves do not depend on what the target buffer held before. -/
def SawRenderOverwrites {σsaw σsquare σdrive : Type}
    (C : Collaborators α σsaw σsquare σdrive) : Prop :=
  ∀ (s : σsaw) (f pw shape : α) (b b' : Buffer α) (size i : Nat), i < size →
    (C.sawRender s f pw shape b size).2 i = (C.sawRender s f pw shape b' size).2 i

/-- The state the overdrive keeps between calls depends on the first `size` samples it
was given only. -/
def OverdriveStateReadsBlock {σsaw σsquare σdrive : Type}
    (C : Collaborators α σsaw σsquare σdrive) : Prop :=
  ∀ (s : σdrive) (drive : α) (b b' : Buffer α) (size : Nat),
    (∀ i, i < size → b i = b' i) →
    (C.overdriveProcess s drive b size).1 = (C.overdriveProcess s drive b' size).1

/-- The collaborators write the first `size` samples of their buffer only: every sample
from index `size` on is left as it was. -/
def WriteBlockOnly {σsaw σsquare σdrive : Type}
    (C : Collaborators α σsaw σsquare σdrive) : Prop :=
  (∀ (s : σsaw) (f pw shape : α) (b : Buffer α) (size i : Nat), size ≤ i →
    (C.sawRender s f pw shape b size).2 i = b i) ∧
  (∀ (s : σsquare) (f0 f pw shape : α) (b : Buffer α) (size i : Nat), size ≤ i →
    (C.squareRender s f0 f pw shape b size).2 i = b i) ∧
  (∀ (s : σdrive) (drive : α) (b : Buffer α) (size i : Nat), size ≤ i →
    (C.overdriveProcess s drive b size).2 i = b i)

/-- A second sample buffer holding other stale content. -/
def sampleOtherStale : Buffer ℚ := fun i => -3 * (i : ℚ)

/-! ## The same code in binary32

The engine computes in `float`. Here every `float` operation is the exact operation
followed by rounding to binary32 (round to nearest, ties to even), and every `float`
literal is the rounded decimal. A binary32 value is the rational it stands for;
infinities and NaN are outside this model, and no value below comes near `2^128`. -/

namespace Binary32

/-- The number of halvings that bring `n` below `2`, at most `fuel` of them: with
`fuel = n` this is the position of the leading bit of `n`. -/
def halvings : Nat → Nat → Nat
  | 0, _ => 0
  | fuel + 1, n => if n < 2 then 0 else halvings fuel (n / 2) + 1

/-- The exponent of a non-zero rational: the integer `e` with `2^e ≤ |x| < 2^(e+1)`. It
is the difference of the leading bit positions of numerator and denominator, or one
less. -/
def exponent (x : ℚ) : Int :=
  let e : Int := (halvings x.num.natAbs x.num.natAbs : Int) - (halvings x.den x.den : Int)
  if (2 : ℚ) ^ e ≤ |x| then e else e - 1

/-- Rounding of a rational to the nearest integer, ties to the even one. -/
def roundHalfEven (x : ℚ) : Int :=
  if x - (⌊x⌋ : ℚ) < 1 / 2 then ⌊x⌋
  else if x - (⌊x⌋ : ℚ) > 1 / 2 then ⌊x⌋ + 1
  else if ⌊x⌋ % 2 = 0 then ⌊x⌋ else ⌊x⌋ + 1

/-- Rounding to binary32: 24 significant bits, least exponent `-126` (below it the
spacing stays `2^(-149)`). -/
def toFloat (x : ℚ) : ℚ :=
  if x = 0 then 0
  else (roundHalfEven (x / (2 : ℚ) ^ (max (exponent x) (-126) - 23)) : ℚ)
    * (2 : ℚ) ^ (max (exponent x) (-126) - 23)

/-- The `float` product. -/
def fmul (x y : ℚ) : ℚ := toFloat (x * y)

/-- The `float` quotient. -/
def fdiv (x y : ℚ) : ℚ := toFloat (x / y)

/-- The `float` sum. -/
def fadd (x y : ℚ) : ℚ := toFloat (x + y)

/-- The `float` difference. -/
def fsub (x y : ℚ) : ℚ := toFloat (x - y)

/-- The table `const float intervals[5]`, each literal rounded to binary32. -/
def intervals : List ℚ :=
  [toFloat 0.0, toFloat 7.01, toFloat 12.01, toFloat 19.01, toFloat 24.01]

/-- A read `intervals[index]` with a signed index: `none` outside the table. -/
def readIntervals (index : Int) : Option ℚ :=
  if 0 ≤ index then intervals[index.toNat]? else none

/-- The smoothstep `Squash(x) = x * x * (3.0f - 2.0f * x)` in binary32. -/
def Squash (x : ℚ) : ℚ := fmul (fmul x x) (fsub (toFloat 3.0) (fmul (toFloat 2.0) x))

/-- The variable `detune` after `detune = 2.05f * detune - 1.025f` and
`CONSTRAIN(detune, -1.0f, 1.0f)`. -/
def detuneConstrained (detune : ℚ) : ℚ :=
  CONSTRAIN (fsub (fmul (toFloat 2.05) detune) (toFloat 1.025)) (toFloat (-1.0)) (toFloat 1.0)

/-- The variable `sign = detune < 0.0f ? -1.0f : 1.0f`. -/
def detuneSign (detune : ℚ) : ℚ :=
  if detuneConstrained detune < toFloat 0.0 then toFloat (-1.0) else toFloat 1.0

/-- The variable `detune` after `detune = detune * sign * 3.9999f`. -/
def detuneScaled (detune : ℚ) : ℚ :=
  fmul (fmul (detuneConstrained detune) (detuneSign detune)) (toFloat 3.9999)

/-- The variable `detune_integral` declared by `MAKE_INTEGRAL_FRACTIONAL(detune)`. -/
def detune_integral (detune : ℚ) : Int := MAKE_INTEGRAL (detuneScaled detune)

/-- The variable `detune_fractional` declared by `MAKE_INTEGRAL_FRACTIONAL(detune)`: the
`float` difference of `detune` and the integral part converted to `float`. -/
def detune_fractional (detune : ℚ) : ℚ :=
  fsub (detuneScaled detune) (toFloat (detune_integral detune : ℚ))

/-- The method `VirtualAnalogModSquare::ComputeDetuning` in binary32. -/
def ComputeDetuning (detune : ℚ) : Option ℚ := do
  let sign := detuneSign detune
  let a ← readIntervals (detune_integral detune)
  let b ← readIntervals (detune_integral detune + 1)
  pure (fmul (fadd a (fmul (fsub b a) (Squash (Squash (detune_fractional detune))))) sign)

/-- The local `saw_pw` of `Render` in binary32, after its `CONSTRAIN`. -/
def saw_pw (parameters : EngineParameters ℚ) : ℚ :=
  CONSTRAIN (fmul (fdiv parameters.timbre (toFloat 2.0)) (toFloat 1.1)) (toFloat 0.005)
    (toFloat 1.0)

/-- The local `saw_shape` of `Render` in binary32, after its `CONSTRAIN`. -/
def saw_shape (parameters : EngineParameters ℚ) : ℚ :=
  CONSTRAIN (fsub (toFloat 10.0) (fmul (toFloat 21.0) parameters.timbre)) (toFloat 0.0)
    (toFloat 1.0)

/-- The local `square_pw` of `Render` in binary32, after its `CONSTRAIN`. -/
def square_pw (parameters : EngineParameters ℚ) : ℚ :=
  CONSTRAIN (fdiv (fmul parameters.timbre (toFloat 1.1)) (toFloat 2.0)) (toFloat 0.005)
    (toFloat 0.5)

end Binary32

/-! ## Definitions used by the proofs -/

/-- The double smoothstep of a fraction held to `[0, 1]`. -/
def smooth (x : α) : α := Squash (Squash (max 0 (min x 1)))

/-- The detuning curve as a function of the scaled magnitude, written without a
table: each of the four segments adds its own rise. -/
def detuneCurve (m : α) : α :=
  7.01 * smooth m + 5 * smooth (m - 1) + 7 * smooth (m - 2) + 5 * smooth (m - 3)

/-- The returned value written with `max` and `min` only: no case split on the sign
and no table. -/
def detuneClosed (h : α) : α :=
  detuneCurve (max (max (-1) (min (2.05 * h - 1.025) 1)) 0 * 3.9999)
    - detuneCurve (max (-max (-1) (min (2.05 * h - 1.025) 1)) 0 * 3.9999)

/-! ## The macros -/

theorem CONSTRAIN_eq_max_min (x lo hi : α) (h : lo ≤ hi) :
    CONSTRAIN x lo hi = max lo (min x hi) := by
  unfold CONSTRAIN
  split_ifs with h1 h2
  · rw [max_eq_left]
    exact le_trans (min_le_left _ _) h1.le
  · rw [min_eq_right h2.le, max_eq_right h]
  · rw [min_eq_left (not_lt.mp h2), max_eq_right (not_lt.mp h1)]

theorem CONSTRAIN_mem (x lo hi : α) (h : lo ≤ hi) :
    lo ≤ CONSTRAIN x lo hi ∧ CONSTRAIN x lo hi ≤ hi := by
  rw [CONSTRAIN_eq_max_min x lo hi h]
  exact ⟨le_max_left _ _, max_le h (min_le_right _ _)⟩

theorem CONSTRAIN_mono (lo hi : α) (h : lo ≤ hi) {x y : α} (hxy : x ≤ y) :
    CONSTRAIN x lo hi ≤ CONSTRAIN y lo hi := by
  rw [CONSTRAIN_eq_max_min x lo hi h, CONSTRAIN_eq_max_min y lo hi h]
  exact max_le_max le_rfl (min_le_min hxy le_rfl)

/-! ## The smoothstep -/

theorem Squash_zero : Squash (0 : α) = 0 := by
  unfold Squash; norm_num

theorem Squash_one : Squash (1 : α) = 1 := by
  unfold Squash; norm_num

theorem Squash_mem {x : α} (h0 : 0 ≤ x) (h1 : x ≤ 1) :
    0 ≤ Squash x ∧ Squash x ≤ 1 := by
  unfold Squash
  constructor
  · have : 0 ≤ (3.0 : α) - 2.0 * x := by norm_num; linarith
    positivity
  · have h : (1 : α) - x * x * (3.0 - 2.0 * x) = (1 - x) * (1 - x) * (1 + 2 * x) := by
      norm_num; ring
    have h2 : 0 ≤ (1 - x) * (1 - x) * (1 + 2 * x) := by
      have : 0 ≤ 1 - x := by linarith
      have : 0 ≤ 1 + 2 * x := by linarith
      positivity
    linarith

theorem Squash_mono {x y : α} (h0 : 0 ≤ x) (hxy : x ≤ y) (h1 : y ≤ 1) :
    Squash x ≤ Squash y := by
  unfold Squash
  have hy0 : 0 ≤ y := le_trans h0 hxy
  have hx1 : x ≤ 1 := le_trans hxy h1
  have key : y * y * (3.0 - 2.0 * y) - x * x * (3.0 - 2.0 * x)
      = (y - x) * (3 * (x + y) - 2 * (x * x + x * y + y * y)) := by
    norm_num; ring
  have hxx : x * x ≤ x := by nlinarith
  have hyy : y * y ≤ y := by nlinarith
  have hxy1 : x * y ≤ x := by nlinarith
  have hxy2 : x * y ≤ y := by nlinarith
  have h2 : 0 ≤ (y - x) * (3 * (x + y) - 2 * (x * x + x * y + y * y)) := by
    apply mul_nonneg
    · linarith
    · linarith
  linarith

theorem Squash_lt_one {x : α} (h0 : 0 ≤ x) (h1 : x < 1) : Squash x < 1 := by
  unfold Squash
  have h : (1 : α) - x * x * (3.0 - 2.0 * x) = (1 - x) * (1 - x) * (1 + 2 * x) := by
    norm_num; ring
  have h2 : 0 < (1 - x) * (1 - x) * (1 + 2 * x) := by
    have : 0 < 1 - x := by linarith
    have : 0 < 1 + 2 * x := by linarith
    positivity
  linarith

theorem smooth_of_nonpos {x : α} (h : x ≤ 0) : smooth x = 0 := by
  unfold smooth
  rw [max_eq_left (le_trans (min_le_left _ _) h), Squash_zero, Squash_zero]

theorem smooth_of_one_le {x : α} (h : 1 ≤ x) : smooth x = 1 := by
  unfold smooth
  rw [min_eq_right h, max_eq_right zero_le_one, Squash_one, Squash_one]

theorem smooth_of_mem {x : α} (h0 : 0 ≤ x) (h1 : x ≤ 1) :
    smooth x = Squash (Squash x) := by
  unfold smooth
  rw [min_eq_left h1, max_eq_right h0]

theorem smooth_mono {x y : α} (hxy : x ≤ y) : smooth x ≤ smooth y := by
  unfold smooth
  have hx0 : (0 : α) ≤ max 0 (min x 1) := le_max_left _ _
  have hy1 : max 0 (min y 1) ≤ (1 : α) := max_le zero_le_one (min_le_right _ _)
  have hm : max 0 (min x 1) ≤ max 0 (min y 1) := max_le_max le_rfl (min_le_min hxy le_rfl)
  have hx1 : max 0 (min x 1) ≤ (1 : α) := le_trans hm hy1
  have hy0 : (0 : α) ≤ max 0 (min y 1) := le_trans hx0 hm
  exact Squash_mono (Squash_mem hx0 hx1).1 (Squash_mono hx0 hm hy1) (Squash_mem hy0 hy1).2

theorem smooth_nonneg (x : α) : 0 ≤ smooth x := by
  unfold smooth
  have hx0 : (0 : α) ≤ max 0 (min x 1) := le_max_left _ _
  have hx1 : max 0 (min x 1) ≤ (1 : α) := max_le zero_le_one (min_le_right _ _)
  exact (Squash_mem (Squash_mem hx0 hx1).1 (Squash_mem hx0 hx1).2).1

theorem detuneCurve_mono {x y : α} (hxy : x ≤ y) : detuneCurve x ≤ detuneCurve y := by
  unfold detuneCurve
  have h0 := smooth_mono hxy
  have h1 : smooth (x - 1) ≤ smooth (y - 1) := smooth_mono (by linarith)
  have h2 : smooth (x - 2) ≤ smooth (y - 2) := smooth_mono (by linarith)
  have h3 : smooth (x - 3) ≤ smooth (y - 3) := smooth_mono (by linarith)
  have h7 : (7.01 : α) * smooth x ≤ 7.01 * smooth y :=
    mul_le_mul_of_nonneg_left h0 (by norm_num)
  linarith

theorem detuneCurve_nonneg (x : α) : 0 ≤ detuneCurve x := by
  unfold detuneCurve
  have h0 := smooth_nonneg x
  have h1 := smooth_nonneg (x - 1)
  have h2 := smooth_nonneg (x - 2)
  have h3 := smooth_nonneg (x - 3)
  have h7 : (0 : α) ≤ 7.01 * smooth x := mul_nonneg (by norm_num) h0
  linarith

theorem detuneCurve_zero : detuneCurve (0 : α) = 0 := by
  unfold detuneCurve
  have h1 : smooth ((0 : α) - 1) = 0 := smooth_of_nonpos (by norm_num)
  have h2 : smooth ((0 : α) - 2) = 0 := smooth_of_nonpos (by norm_num)
  have h3 : smooth ((0 : α) - 3) = 0 := smooth_of_nonpos (by norm_num)
  rw [smooth_of_nonpos le_rfl, h1, h2, h3]
  norm_num

/-! ## The steps of `ComputeDetuning` -/

theorem detuneConstrained_mem (h : α) :
    -1 ≤ detuneConstrained h ∧ detuneConstrained h ≤ 1 := by
  have := CONSTRAIN_mem (2.05 * h - 1.025) (-1.0 : α) 1.0 (by norm_num)
  unfold detuneConstrained
  norm_num at this ⊢
  exact this

theorem detuneConstrained_mono {x y : α} (hxy : x ≤ y) :
    detuneConstrained x ≤ detuneConstrained y := by
  unfold detuneConstrained
  apply CONSTRAIN_mono _ _ (by norm_num)
  have : (2.05 : α) * x ≤ 2.05 * y := mul_le_mul_of_nonneg_left hxy (by norm_num)
  linarith

theorem detuneScaled_eq_abs (h : α) :
    detuneScaled h = |detuneConstrained h| * 3.9999 := by
  unfold detuneScaled detuneSign
  split_ifs with hneg
  · have hneg2 : detuneConstrained h < 0 := by norm_num at hneg; exact hneg
    rw [abs_of_neg hneg2]; norm_num
  · have hpos : 0 ≤ detuneConstrained h := by norm_num at hneg; exact hneg
    rw [abs_of_nonneg hpos]; norm_num

theorem detuneScaled_mem (h : α) :
    0 ≤ detuneScaled h ∧ detuneScaled h ≤ 3.9999 := by
  rw [detuneScaled_eq_abs]
  have hc := detuneConstrained_mem h
  have habs : |detuneConstrained h| ≤ 1 := abs_le.mpr hc
  have h0 : 0 ≤ |detuneConstrained h| := abs_nonneg _
  constructor
  · have : (0 : α) ≤ 3.9999 := by norm_num
    positivity
  · have : |detuneConstrained h| * (3.9999 : α) ≤ 1 * 3.9999 :=
      mul_le_mul_of_nonneg_right habs (by norm_num)
    linarith

theorem detuneScaled_lt_four (h : α) : detuneScaled h < 4 := by
  have := (detuneScaled_mem h).2
  have h4 : (3.9999 : α) < 4 := by norm_num
  linarith

theorem detune_integral_mem [FloorRing α] (h : α) :
    0 ≤ detune_integral h ∧ detune_integral h ≤ 3 := by
  unfold detune_integral MAKE_INTEGRAL
  constructor
  · exact Int.floor_nonneg.mpr (detuneScaled_mem h).1
  · have : ⌊detuneScaled h⌋ < 4 := Int.floor_lt.mpr (by exact_mod_cast detuneScaled_lt_four h)
    omega

theorem detune_fractional_mem [FloorRing α] (h : α) :
    0 ≤ detune_fractional h ∧ detune_fractional h < 1 := by
  unfold detune_fractional MAKE_FRACTIONAL MAKE_INTEGRAL
  have h1 := Int.floor_le (detuneScaled h)
  have h2 := Int.lt_floor_add_one (detuneScaled h)
  constructor <;> linarith

theorem readIntervals_zero : readIntervals (0 : Int) = some (0 : α) := by
  simp [readIntervals, intervals]
  norm_num

theorem readIntervals_one : readIntervals (1 : Int) = some (7.01 : α) := by
  simp [readIntervals, intervals]

theorem readIntervals_two : readIntervals (2 : Int) = some (12.01 : α) := by
  simp [readIntervals, intervals]

theorem readIntervals_three : readIntervals (3 : Int) = some (19.01 : α) := by
  simp [readIntervals, intervals]

theorem readIntervals_four : readIntervals (4 : Int) = some (24.01 : α) := by
  simp [readIntervals, intervals]

/-- On the segment holding `m`, the table interpolation is the curve `detuneCurve`. -/
theorem interpolate_eq_detuneCurve [FloorRing α] (m : α) (h0 : 0 ≤ m) (h4 : m < 4) :
    ∃ a b : α, readIntervals ⌊m⌋ = some a ∧ readIntervals (⌊m⌋ + 1) = some b ∧
      a + (b - a) * Squash (Squash (m - (⌊m⌋ : α))) = detuneCurve m := by
  have hk0 : 0 ≤ ⌊m⌋ := Int.floor_nonneg.mpr h0
  have hk4 : ⌊m⌋ < 4 := Int.floor_lt.mpr (by exact_mod_cast h4)
  have hle := Int.floor_le m
  have hlt := Int.lt_floor_add_one m
  generalize ⌊m⌋ = k at hk0 hk4 hle hlt
  unfold detuneCurve
  interval_cases k
  · refine ⟨0, 7.01, readIntervals_zero, readIntervals_one, ?_⟩
    norm_num at hle hlt ⊢
    rw [smooth_of_mem hle hlt.le, smooth_of_nonpos (by linarith),
      smooth_of_nonpos (by linarith), smooth_of_nonpos (by linarith)]
    ring
  · refine ⟨7.01, 12.01, readIntervals_one, readIntervals_two, ?_⟩
    norm_num at hle hlt ⊢
    rw [smooth_of_one_le hle, smooth_of_mem (by linarith) (by linarith),
      smooth_of_nonpos (by linarith), smooth_of_nonpos (by linarith)]
    ring
  · refine ⟨12.01, 19.01, readIntervals_two, readIntervals_three, ?_⟩
    norm_num at hle hlt ⊢
    rw [smooth_of_one_le (by linarith), smooth_of_one_le (by linarith),
      smooth_of_mem (by linarith) (by linarith), smooth_of_nonpos (by linarith)]
    ring
  · refine ⟨19.01, 24.01, readIntervals_three, readIntervals_four, ?_⟩
    norm_num at hle hlt ⊢
    rw [smooth_of_one_le (by linarith), smooth_of_one_le (by linarith),
      smooth_of_one_le (by linarith), smooth_of_mem (by linarith) (by linarith)]
    ring

/-- The value `ComputeDetuning` returns, for every input: the table reads succeed. -/
theorem ComputeDetuning_eq [FloorRing α] (h : α) :
    ComputeDetuning h = some (detuneCurve (detuneScaled h) * detuneSign h) := by
  obtain ⟨a, b, ha, hb, hab⟩ :=
    interpolate_eq_detuneCurve (detuneScaled h) (detuneScaled_mem h).1 (detuneScaled_lt_four h)
  unfold ComputeDetuning detune_integral detune_fractional MAKE_FRACTIONAL MAKE_INTEGRAL
  rw [ha, hb]
  simp only [Option.bind_eq_bind, Option.some_bind, Option.pure_def]
  rw [hab]

theorem detuneSign_of_neg {h : α} (hd : detuneConstrained h < 0) : detuneSign h = -1 := by
  unfold detuneSign
  rw [if_pos (by norm_num; exact hd)]
  norm_num

theorem detuneSign_of_nonneg {h : α} (hd : 0 ≤ detuneConstrained h) : detuneSign h = 1 := by
  unfold detuneSign
  rw [if_neg (by norm_num; exact hd)]
  norm_num

theorem detuneScaled_of_neg {h : α} (hd : detuneConstrained h < 0) :
    detuneScaled h = -detuneConstrained h * 3.9999 := by
  rw [detuneScaled_eq_abs, abs_of_neg hd]

theorem detuneScaled_of_nonneg {h : α} (hd : 0 ≤ detuneConstrained h) :
    detuneScaled h = detuneConstrained h * 3.9999 := by
  rw [detuneScaled_eq_abs, abs_of_nonneg hd]

/-- The returned value is non-decreasing in the control, on the whole line. -/
theorem detuneValue_mono {x y : α} (hxy : x ≤ y) :
    detuneCurve (detuneScaled x) * detuneSign x ≤ detuneCurve (detuneScaled y) * detuneSign y := by
  have hd := detuneConstrained_mono hxy
  have hc : (0 : α) ≤ 3.9999 := by norm_num
  rcases lt_or_le (detuneConstrained x) 0 with hx | hx
  · rcases lt_or_le (detuneConstrained y) 0 with hy | hy
    · rw [detuneSign_of_neg hx, detuneSign_of_neg hy, detuneScaled_of_neg hx,
        detuneScaled_of_neg hy]
      have hm : -detuneConstrained y * (3.9999 : α) ≤ -detuneConstrained x * 3.9999 :=
        mul_le_mul_of_nonneg_right (by linarith) hc
      have := detuneCurve_mono hm
      linarith
    · rw [detuneSign_of_neg hx, detuneSign_of_nonneg hy]
      have h1 := detuneCurve_nonneg (detuneScaled x)
      have h2 := detuneCurve_nonneg (detuneScaled y)
      linarith
  · have hy : 0 ≤ detuneConstrained y := le_trans hx hd
    rw [detuneSign_of_nonneg hx, detuneSign_of_nonneg hy, detuneScaled_of_nonneg hx,
      detuneScaled_of_nonneg hy]
    have hm : detuneConstrained x * (3.9999 : α) ≤ detuneConstrained y * 3.9999 :=
      mul_le_mul_of_nonneg_right hd hc
    have := detuneCurve_mono hm
    linarith

theorem CONSTRAIN_neg (x : α) : CONSTRAIN (-x) (-1.0) 1.0 = -CONSTRAIN x (-1.0) 1.0 := by
  unfold CONSTRAIN
  norm_num
  split_ifs <;> first | rfl | (exfalso; linarith) | linarith

theorem detuneConstrained_reflect (x : α) :
    detuneConstrained (0.5 + x) = -detuneConstrained (0.5 - x) := by
  unfold detuneConstrained
  rw [← CONSTRAIN_neg]
  congr 1
  norm_num
  ring

/-- The returned value is odd about the centre `0.5` of the control. -/
theorem detuneValue_reflect (x : α) :
    detuneCurve (detuneScaled (0.5 + x)) * detuneSign (0.5 + x)
      = -(detuneCurve (detuneScaled (0.5 - x)) * detuneSign (0.5 - x)) := by
  have hr := detuneConstrained_reflect x
  rcases lt_trichotomy (detuneConstrained (0.5 - x)) 0 with hneg | hzero | hpos
  · have hp : 0 ≤ detuneConstrained (0.5 + x) := by rw [hr]; linarith
    rw [detuneSign_of_neg hneg, detuneSign_of_nonneg hp, detuneScaled_of_neg hneg,
      detuneScaled_of_nonneg hp, hr]
    ring
  · have hz : detuneConstrained (0.5 + x) = 0 := by rw [hr, hzero]; simp
    rw [detuneScaled_of_nonneg hzero.ge, detuneScaled_of_nonneg hz.ge, hz, hzero]
    simp [detuneCurve_zero]
  · have hn : detuneConstrained (0.5 + x) < 0 := by rw [hr]; linarith
    rw [detuneSign_of_neg hn, detuneSign_of_nonneg hpos.le, detuneScaled_of_neg hn,
      detuneScaled_of_nonneg hpos.le, hr]
    ring_nf

theorem detuneConstrained_eq_max_min (h : α) :
    detuneConstrained h = max (-1) (min (2.05 * h - 1.025) 1) := by
  unfold detuneConstrained
  rw [CONSTRAIN_eq_max_min _ _ _ (by norm_num)]
  norm_num

theorem detuneValue_eq_detuneClosed (h : α) :
    detuneCurve (detuneScaled h) * detuneSign h = detuneClosed h := by
  unfold detuneClosed
  rw [← detuneConstrained_eq_max_min]
  rcases lt_or_le (detuneConstrained h) 0 with hd | hd
  · rw [detuneSign_of_neg hd, detuneScaled_of_neg hd, max_eq_right hd.le,
      max_eq_left (by linarith), zero_mul, detuneCurve_zero]
    ring
  · rw [detuneSign_of_nonneg hd, detuneScaled_of_nonneg hd, max_eq_left hd,
      max_eq_right (by linarith), zero_mul, detuneCurve_zero]
    ring

theorem continuous_detuneClosed : Continuous (fun h : ℝ => detuneClosed h) := by
  unfold detuneClosed detuneCurve smooth Squash
  fun_prop

/-! ## Breakpoints and extremes -/

theorem detuneConstrained_breakpoint (k : Nat) (hk : k ≤ 3) :
    detuneConstrained ((0.5 : α) + (k : α) / (2.05 * 3.9999)) = (k : α) / 3.9999 := by
  have hmap : (2.05 : α) * (0.5 + (k : α) / (2.05 * 3.9999)) - 1.025 = (k : α) / 3.9999 := by
    norm_num
    field_simp
    ring
  have hk0 : (0 : α) ≤ (k : α) := Nat.cast_nonneg k
  have hk3 : (k : α) ≤ 3 := by exact_mod_cast hk
  have hlo : (0 : α) ≤ (k : α) / 3.9999 := div_nonneg hk0 (by norm_num)
  have hhi : (k : α) / 3.9999 ≤ 1 := by
    rw [div_le_one (by norm_num)]
    have : (3 : α) ≤ 3.9999 := by norm_num
    linarith
  unfold detuneConstrained CONSTRAIN
  rw [hmap, if_neg (by norm_num; linarith), if_neg (by norm_num; linarith)]

theorem detuneScaled_breakpoint (k : Nat) (hk : k ≤ 3) :
    detuneScaled ((0.5 : α) + (k : α) / (2.05 * 3.9999)) = (k : α) := by
  have hd : detuneConstrained ((0.5 : α) + (k : α) / (2.05 * 3.9999)) = (k : α) / 3.9999 :=
    detuneConstrained_breakpoint k hk
  have hlo : (0 : α) ≤ (k : α) / 3.9999 := div_nonneg (Nat.cast_nonneg k) (by norm_num)
  rw [detuneScaled_of_nonneg (by rw [hd]; exact hlo), hd]
  norm_num

theorem detuneSign_breakpoint (k : Nat) (hk : k ≤ 3) :
    detuneSign ((0.5 : α) + (k : α) / (2.05 * 3.9999)) = 1 := by
  have hd : detuneConstrained ((0.5 : α) + (k : α) / (2.05 * 3.9999)) = (k : α) / 3.9999 :=
    detuneConstrained_breakpoint k hk
  have hlo : (0 : α) ≤ (k : α) / 3.9999 := div_nonneg (Nat.cast_nonneg k) (by norm_num)
  exact detuneSign_of_nonneg (by rw [hd]; exact hlo)

theorem detune_fractional_breakpoint [FloorRing α] (k : Nat) (hk : k ≤ 3) :
    detune_fractional ((0.5 : α) + (k : α) / (2.05 * 3.9999)) = 0 := by
  unfold detune_fractional MAKE_FRACTIONAL MAKE_INTEGRAL
  rw [detuneScaled_breakpoint k hk, Int.floor_natCast]
  simp

theorem detuneCurve_natCast (k : Nat) (hk : k ≤ 3) :
    ∃ a : α, (intervals : List α)[k]? = some a ∧ detuneCurve (k : α) = a := by
  unfold detuneCurve
  interval_cases k
  · refine ⟨0.0, by simp [intervals], ?_⟩
    rw [smooth_of_nonpos (by norm_num), smooth_of_nonpos (by norm_num),
      smooth_of_nonpos (by norm_num), smooth_of_nonpos (by norm_num)]
    norm_num
  · refine ⟨7.01, by simp [intervals], ?_⟩
    rw [smooth_of_one_le (by norm_num), smooth_of_nonpos (by norm_num),
      smooth_of_nonpos (by norm_num), smooth_of_nonpos (by norm_num)]
    norm_num
  · refine ⟨12.01, by simp [intervals], ?_⟩
    rw [smooth_of_one_le (by norm_num), smooth_of_one_le (by norm_num),
      smooth_of_nonpos (by norm_num), smooth_of_nonpos (by norm_num)]
    norm_num
  · refine ⟨19.01, by simp [intervals], ?_⟩
    rw [smooth_of_one_le (by norm_num), smooth_of_one_le (by norm_num),
      smooth_of_one_le (by norm_num), smooth_of_nonpos (by norm_num)]
    norm_num

/-- With a zero fraction the result is the table entry read first, with the sign. -/
theorem ComputeDetuning_of_fractional_zero [FloorRing α] (h : α)
    (hf : detune_fractional h = 0) :
    ∃ a : α, readIntervals (detune_integral h) = some a ∧
      ComputeDetuning h = some (a * detuneSign h) ∧
      (a = 0 ∨ a = 7.01 ∨ a = 12.01 ∨ a = 19.01) := by
  have key : ∀ a b : α, readIntervals (detune_integral h) = some a →
      readIntervals (detune_integral h + 1) = some b →
      ComputeDetuning h = some (a * detuneSign h) := by
    intro a b ha hb
    unfold ComputeDetuning
    rw [ha, hb, hf]
    simp [Squash_zero]
  have hk := detune_integral_mem h
  have hcases : detune_integral h = 0 ∨ detune_integral h = 1 ∨ detune_integral h = 2 ∨
      detune_integral h = 3 := by omega
  rcases hcases with h0 | h1 | h2 | h3
  · have ha : readIntervals (detune_integral h) = some (0 : α) := by
      rw [h0]; exact readIntervals_zero
    have hb : readIntervals (detune_integral h + 1) = some (7.01 : α) := by
      rw [h0]; exact readIntervals_one
    exact ⟨0, ha, key _ _ ha hb, Or.inl rfl⟩
  · have ha : readIntervals (detune_integral h) = some (7.01 : α) := by
      rw [h1]; exact readIntervals_one
    have hb : readIntervals (detune_integral h + 1) = some (12.01 : α) := by
      rw [h1]; exact readIntervals_two
    exact ⟨7.01, ha, key _ _ ha hb, Or.inr (Or.inl rfl)⟩
  · have ha : readIntervals (detune_integral h) = some (12.01 : α) := by
      rw [h2]; exact readIntervals_two
    have hb : readIntervals (detune_integral h + 1) = some (19.01 : α) := by
      rw [h2]; exact readIntervals_three
    exact ⟨12.01, ha, key _ _ ha hb, Or.inr (Or.inr (Or.inl rfl))⟩
  · have ha : readIntervals (detune_integral h) = some (19.01 : α) := by
      rw [h3]; exact readIntervals_three
    have hb : readIntervals (detune_integral h + 1) = some (24.01 : α) := by
      rw [h3]; exact readIntervals_four
    exact ⟨19.01, ha, key _ _ ha hb, Or.inr (Or.inr (Or.inr rfl))⟩

theorem detuneSign_cases (h : α) : detuneSign h = 1 ∨ detuneSign h = -1 := by
  rcases lt_or_le (detuneConstrained h) 0 with hd | hd
  · exact Or.inr (detuneSign_of_neg hd)
  · exact Or.inl (detuneSign_of_nonneg hd)

theorem detuneConstrained_one : detuneConstrained (1 : α) = 1 := by
  unfold detuneConstrained CONSTRAIN
  norm_num

theorem detuneCurve_top : detuneCurve (3.9999 : α) = 19.01 + 5 * Squash (Squash 0.9999) := by
  unfold detuneCurve
  have e1 : (3.9999 : α) - 3 = 0.9999 := by norm_num
  rw [smooth_of_one_le (by norm_num), smooth_of_one_le (by norm_num),
    smooth_of_one_le (by norm_num), e1, smooth_of_mem (by norm_num) (by norm_num)]
  norm_num

theorem detuneValue_one :
    detuneCurve (detuneScaled (1 : α)) * detuneSign (1 : α)
      = 19.01 + 5 * Squash (Squash 0.9999) := by
  have hd : (0 : α) ≤ detuneConstrained (1 : α) := by rw [detuneConstrained_one]; norm_num
  rw [detuneSign_of_nonneg hd, detuneScaled_of_nonneg hd, detuneConstrained_one, one_mul,
    mul_one, detuneCurve_top]

theorem detuneValue_zero :
    detuneCurve (detuneScaled (0 : α)) * detuneSign (0 : α)
      = -(19.01 + 5 * Squash (Squash 0.9999)) := by
  have hr := detuneValue_reflect (0.5 : α)
  have e1 : (0.5 : α) + 0.5 = 1 := by norm_num
  have e0 : (0.5 : α) - 0.5 = 0 := by norm_num
  rw [e1, e0, detuneValue_one] at hr
  rw [hr, neg_neg]

theorem ComputeDetuning_centre [FloorRing α] : ComputeDetuning (0.5 : α) = some 0 := by
  have hd : detuneConstrained (0.5 : α) = 0 := by
    unfold detuneConstrained CONSTRAIN
    norm_num
  rw [ComputeDetuning_eq, detuneScaled_of_nonneg hd.ge, hd, zero_mul, detuneCurve_zero,
    zero_mul]

/-! ## The cross-fade loop and the shape of `Render` -/

theorem crossfade_apply (dst src : Buffer α) (size i : Nat) :
    crossfade dst src size i = if i < size then dst i * 0.5 + src i * 0.5 else dst i := by
  induction size with
  | zero => simp [crossfade]
  | succ n ih =>
    simp only [crossfade]
    by_cases hin : i = n
    · subst hin
      rw [Function.update_same, ih]
      simp
    · rw [Function.update_noteq hin, ih]
      by_cases hlt : i < n
      · rw [if_pos hlt, if_pos (by omega)]
      · rw [if_neg hlt, if_neg (by omega)]

/-- The result of `Render` in the configuration `VA_VARIANT == 2`, once the detuning is
known. -/
theorem Render_eq [FloorRing α] {σsaw σsquare σdrive : Type}
    (C : Collaborators α σsaw σsquare σdrive)
    (engine : VirtualAnalogModSquare α σsaw σsquare σdrive)
    (parameters : EngineParameters α) (out aux : Buffer α) (size : Nat)
    (already_enveloped : Bool) (detuning : α)
    (hdet : ComputeDetuning parameters.harmonics = some detuning) :
    ∃ r : RenderResult α σsaw σsquare σdrive,
      Render 2 C engine parameters out aux size already_enveloped = some r ∧
      r.aux = (C.overdriveProcess engine.overdrive_ (0.5 + 0.5 * aux_drive parameters)
        (crossfade
          (C.sawRender engine.saw2_ (C.NoteToFrequency (parameters.note + detuning))
            (saw_pw parameters) (saw_shape parameters) aux size).2
          (C.sawRender engine.saw1_ (C.NoteToFrequency parameters.note)
            (saw_pw parameters) (saw_shape parameters) out size).2 size) size).2 ∧
      r.out = (C.overdriveProcess
        (C.overdriveProcess engine.overdrive_ (0.5 + 0.5 * aux_drive parameters)
          (crossfade
            (C.sawRender engine.saw2_ (C.NoteToFrequency (parameters.note + detuning))
              (saw_pw parameters) (saw_shape parameters) aux size).2
            (C.sawRender engine.saw1_ (C.NoteToFrequency parameters.note)
              (saw_pw parameters) (saw_shape parameters) out size).2 size) size).1
        (0.5 + 0.5 * out_drive parameters)
        (crossfade
          (C.squareRender engine.square2_ (C.NoteToFrequency (parameters.note + detuning))
            (C.NoteToFrequency (parameters.note + detuning)) (square_pw parameters) 1.0
            (C.sawRender engine.saw1_ (C.NoteToFrequency parameters.note)
              (saw_pw parameters) (saw_shape parameters) out size).2 size).2
          (C.squareRender engine.square1_ (C.NoteToFrequency parameters.note)
            (C.NoteToFrequency parameters.note) (square_pw parameters) 1.0
            engine.temp_buffer_ size).2 size) size).2 ∧
      r.already_enveloped = already_enveloped := by
  unfold Render
  rw [if_pos rfl, hdet]
  exact ⟨_, rfl, rfl, rfl, rfl⟩

/-! ## ComputeDetuning: the claims -/

/-- C1: `ComputeDetuning` is monotonic non-decreasing on the control range: for
harmonics values `0 ≤ h1 ≤ h2 ≤ 1` both calls return a value and
`ComputeDetuning h1 ≤ ComputeDetuning h2`. -/
theorem ComputeDetuning_monotone [FloorRing α] (h1 h2 : α) (h0 : 0 ≤ h1) (h12 : h1 ≤ h2)
    (h21 : h2 ≤ 1) :
    ∃ v1 v2 : α, ComputeDetuning h1 = some v1 ∧ ComputeDetuning h2 = some v2 ∧ v1 ≤ v2 :=
  ⟨_, _, ComputeDetuning_eq h1, ComputeDetuning_eq h2, detuneValue_mono h12⟩

/-- C2 (as amended): in exact arithmetic, `ComputeDetuning` is antisymmetric about the
centre of the control: for every `x`, both calls return a value and
`ComputeDetuning (0.5 + x) = -ComputeDetuning (0.5 - x)`; at the centre itself (`x = 0`)
the sign is `+1`. -/
theorem ComputeDetuning_antisymmetric [FloorRing α] (x : α) :
    (∃ v : α, ComputeDetuning (0.5 - x) = some v ∧ ComputeDetuning (0.5 + x) = some (-v)) ∧
      detuneSign (0.5 : α) = 1 := by
  refine ⟨⟨_, ComputeDetuning_eq (0.5 - x), by rw [ComputeDetuning_eq, detuneValue_reflect]⟩, ?_⟩
  apply detuneSign_of_nonneg
  unfold detuneConstrained CONSTRAIN
  norm_num

/-- C3: `ComputeDetuning 0.5` is exactly `0`: the mapped value `2.05 * 0.5 - 1.025` is
`0`, it stays `0` through the clamp and the scaling, the segment index is `0`, the
fraction is `0`, the table entry read first is `intervals[0] = 0`, and the result
is `0`. -/
theorem ComputeDetuning_half [FloorRing α] :
    (2.05 : α) * 0.5 - 1.025 = 0 ∧ detuneConstrained (0.5 : α) = 0 ∧
      detuneScaled (0.5 : α) = 0 ∧ detune_integral (0.5 : α) = 0 ∧
      detune_fractional (0.5 : α) = 0 ∧ readIntervals (detune_integral (0.5 : α)) = some (0 : α) ∧
      ComputeDetuning (0.5 : α) = some 0 := by
  have hmap : (2.05 : α) * 0.5 - 1.025 = 0 := by norm_num
  have hd : detuneConstrained (0.5 : α) = 0 := by
    unfold detuneConstrained CONSTRAIN
    rw [hmap]
    norm_num
  have hm : detuneScaled (0.5 : α) = 0 := by
    rw [detuneScaled_of_nonneg hd.ge, hd]
    norm_num
  have hk : detune_integral (0.5 : α) = 0 := by
    unfold detune_integral MAKE_INTEGRAL
    rw [hm]
    exact Int.floor_zero
  have hf : detune_fractional (0.5 : α) = 0 := by
    unfold detune_fractional MAKE_FRACTIONAL MAKE_INTEGRAL
    rw [hm]
    simp
  refine ⟨hmap, hd, hm, hk, hf, ?_, ?_⟩
  · rw [hk]
    exact readIntervals_zero
  · rw [ComputeDetuning_eq, hm, detuneCurve_zero]
    simp

/-- C4: for every input `h` (also outside `[0, 1]`) the magnitude
`m = |clamp (2.05 * h - 1.025) (-1) 1| * 3.9999` lies in `[0, 4)`, the integer part is
one of `0, 1, 2, 3`, the fractional part lies in `[0, 1)`, both table reads are inside
the five-element table and `ComputeDetuning` returns a value. -/
theorem ComputeDetuning_index_in_table [FloorRing α] (h : α) :
    detuneScaled h = |CONSTRAIN (2.05 * h - 1.025) (-1.0) 1.0| * 3.9999 ∧
      0 ≤ detuneScaled h ∧ detuneScaled h < 4 ∧
      (detune_integral h = 0 ∨ detune_integral h = 1 ∨ detune_integral h = 2 ∨
        detune_integral h = 3) ∧
      0 ≤ detune_fractional h ∧ detune_fractional h < 1 ∧
      (∃ a : α, readIntervals (detune_integral h) = some a) ∧
      (∃ b : α, readIntervals (detune_integral h + 1) = some b) ∧
      (∃ v : α, ComputeDetuning h = some v) := by
  have hk := detune_integral_mem h
  have hf := detune_fractional_mem h
  obtain ⟨a, b, ha, hb, _⟩ :=
    interpolate_eq_detuneCurve (detuneScaled h) (detuneScaled_mem h).1 (detuneScaled_lt_four h)
  refine ⟨detuneScaled_eq_abs h, (detuneScaled_mem h).1, detuneScaled_lt_four h, ?_, hf.1, hf.2,
    ⟨a, ha⟩, ⟨b, hb⟩, ⟨_, ComputeDetuning_eq h⟩⟩
  omega

/-- C5: read as a function of a real harmonics value, `ComputeDetuning` returns a value
for every input and that value is a continuous function of the input on the whole
control range `[0, 1]`: there is no jump at the segment boundaries, at the centre
or where the clamp sets in. -/
theorem ComputeDetuning_continuousOn :
    ∃ g : ℝ → ℝ, (∀ h : ℝ, ComputeDetuning h = some (g h)) ∧ ContinuousOn g (Set.Icc 0 1) :=
  ⟨fun h => detuneClosed h,
    fun h => by rw [ComputeDetuning_eq, detuneValue_eq_detuneClosed],
    continuous_detuneClosed.continuousOn⟩

/-- C6: at every harmonics value `h` whose interpolation fraction is exactly `0`,
`ComputeDetuning` returns exactly `sign * intervals[k]` for the segment index `k`, a
member of `0, ±7.01, ±12.01, ±19.01, ±24.01`; and for `k = 0, 1, 2, 3` the harmonics
value `0.5 + k / (2.05 * 3.9999)` has fraction `0` and gives `intervals[k]`, while
`0.5 - k / (2.05 * 3.9999)` gives `-intervals[k]`. -/
theorem ComputeDetuning_at_breakpoint [FloorRing α] (h : α) (hf : detune_fractional h = 0)
    (k : Nat) (hk : k ≤ 3) :
    (∃ a : α, readIntervals (detune_integral h) = some a ∧
      ComputeDetuning h = some (detuneSign h * a) ∧
      detuneSign h * a ∈
        ([0, 7.01, -7.01, 12.01, -12.01, 19.01, -19.01, 24.01, -24.01] : List α)) ∧
    (∃ a : α, (intervals : List α)[k]? = some a ∧
      detune_fractional ((0.5 : α) + (k : α) / (2.05 * 3.9999)) = 0 ∧
      ComputeDetuning ((0.5 : α) + (k : α) / (2.05 * 3.9999)) = some a ∧
      ComputeDetuning ((0.5 : α) - (k : α) / (2.05 * 3.9999)) = some (-a)) := by
  constructor
  · obtain ⟨a, ha, hv, hmem⟩ := ComputeDetuning_of_fractional_zero h hf
    refine ⟨a, ha, by rw [hv, mul_comm], ?_⟩
    rcases detuneSign_cases h with hs | hs <;> rcases hmem with ha0 | ha0 | ha0 | ha0 <;>
      simp [hs, ha0]
  · obtain ⟨a, ha, hc⟩ : ∃ a : α, (intervals : List α)[k]? = some a ∧ detuneCurve (k : α) = a :=
      detuneCurve_natCast k hk
    refine ⟨a, ha, detune_fractional_breakpoint k hk, ?_, ?_⟩
    · rw [ComputeDetuning_eq, detuneScaled_breakpoint k hk, detuneSign_breakpoint k hk, hc,
        mul_one]
    · have hr := detuneValue_reflect ((k : α) / (2.05 * 3.9999))
      rw [detuneScaled_breakpoint k hk, detuneSign_breakpoint k hk, hc, mul_one] at hr
      rw [ComputeDetuning_eq, hr, neg_neg]

/-- C7: at the domain extremes the detuning is about two octaves:
`ComputeDetuning 1 = 19.01 + 5 * Squash (Squash 0.9999)`,
`ComputeDetuning 0 = -ComputeDetuning 1`, and both are within `1e-6` of `24.01` and
`-24.01`. -/
theorem ComputeDetuning_extremes [FloorRing α] :
    ComputeDetuning (1 : α) = some (19.01 + 5 * Squash (Squash 0.9999)) ∧
      ComputeDetuning (0 : α) = some (-(19.01 + 5 * Squash (Squash 0.9999))) ∧
      |(19.01 + 5 * Squash (Squash 0.9999) : α) - 24.01| < 1e-6 ∧
      |(-(19.01 + 5 * Squash (Squash 0.9999)) : α) + 24.01| < 1e-6 := by
  refine ⟨by rw [ComputeDetuning_eq, detuneValue_one],
    by rw [ComputeDetuning_eq, detuneValue_zero], ?_, ?_⟩
  · unfold Squash
    rw [abs_lt]
    constructor <;> norm_num
  · unfold Squash
    rw [abs_lt]
    constructor <;> norm_num

/-- An instance of `ComputeDetuning_monotone`, on the rationals: `1/4` and `3/4`. -/
theorem ComputeDetuning_monotone_witness :
    (0 : ℚ) ≤ 1 / 4 ∧ (1 / 4 : ℚ) ≤ 3 / 4 ∧ (3 / 4 : ℚ) ≤ 1 ∧
      ∃ v1 v2 : ℚ, ComputeDetuning (1 / 4 : ℚ) = some v1 ∧
        ComputeDetuning (3 / 4 : ℚ) = some v2 ∧ v1 ≤ v2 :=
  ⟨by norm_num, by norm_num, by norm_num,
    ComputeDetuning_monotone (1 / 4) (3 / 4) (by norm_num) (by norm_num) (by norm_num)⟩

/-- An instance of `ComputeDetuning_at_breakpoint`, on the rationals: the octave
breakpoint `0.5 + 2 / (2.05 * 3.9999)`. -/
theorem ComputeDetuning_at_breakpoint_witness :
    detune_fractional ((0.5 : ℚ) + ((2 : Nat) : ℚ) / (2.05 * 3.9999)) = 0 ∧ 2 ≤ 3 ∧
      ComputeDetuning ((0.5 : ℚ) + ((2 : Nat) : ℚ) / (2.05 * 3.9999)) = some 12.01 ∧
      ComputeDetuning ((0.5 : ℚ) - ((2 : Nat) : ℚ) / (2.05 * 3.9999)) = some (-12.01) := by
  have hf : detune_fractional ((0.5 : ℚ) + ((2 : Nat) : ℚ) / (2.05 * 3.9999)) = 0 :=
    detune_fractional_breakpoint 2 (by decide)
  obtain ⟨_, a, ha, _, hp, hm⟩ := ComputeDetuning_at_breakpoint
    ((0.5 : ℚ) + ((2 : Nat) : ℚ) / (2.05 * 3.9999)) hf 2 (by decide)
  have h12 : a = 12.01 := by
    simp [intervals] at ha
    exact ha.symm
  rw [h12] at hp hm
  exact ⟨hf, by decide, hp, hm⟩

/-! ## Render: the claims -/

/-- C8: in the configuration `VA_VARIANT == 2`, with the collaborators as opaque
functions, `Render` returns a result whose `aux` is the overdrive applied to a buffer
that is `0.5 * saw2 + 0.5 * saw1` at every index below `size`, and whose `out` is the
overdrive applied to a buffer that is `0.5 * square2 + 0.5 * square1` there; `saw1` is
the block the first saw left in `out`, which the second square then takes as its
target. The final `aux` is the same whatever the square oscillator is; and when the
square oscillator writes its whole block and the overdrive is a block function whose
state ignores the samples, the final `out` below `size` is the same whatever the saw
oscillator is. -/
theorem Render_blend [FloorRing α] {σsaw σsquare σdrive : Type}
    (C : Collaborators α σsaw σsquare σdrive)
    (engine : VirtualAnalogModSquare α σsaw σsquare σdrive)
    (parameters : EngineParameters α) (out aux : Buffer α) (size : Nat)
    (already_enveloped : Bool) (detuning : α)
    (hdet : ComputeDetuning parameters.harmonics = some detuning) :
    let primary_f := C.NoteToFrequency parameters.note
    let auxiliary_f := C.NoteToFrequency (parameters.note + detuning)
    let saw1 := (C.sawRender engine.saw1_ primary_f (saw_pw parameters)
      (saw_shape parameters) out size).2
    let saw2 := (C.sawRender engine.saw2_ auxiliary_f (saw_pw parameters)
      (saw_shape parameters) aux size).2
    let square1 := (C.squareRender engine.square1_ primary_f primary_f
      (square_pw parameters) 1.0 engine.temp_buffer_ size).2
    let square2 := (C.squareRender engine.square2_ auxiliary_f auxiliary_f
      (square_pw parameters) 1.0 saw1 size).2
    (∃ (r : RenderResult α σsaw σsquare σdrive) (aux_blend out_blend : Buffer α),
      Render 2 C engine parameters out aux size already_enveloped = some r ∧
      (∀ i, i < size → aux_blend i = 0.5 * saw2 i + 0.5 * saw1 i) ∧
      (∀ i, i < size → out_blend i = 0.5 * square2 i + 0.5 * square1 i) ∧
      r.aux = (C.overdriveProcess engine.overdrive_ (0.5 + 0.5 * aux_drive parameters)
        aux_blend size).2 ∧
      r.out = (C.overdriveProcess
        (C.overdriveProcess engine.overdrive_ (0.5 + 0.5 * aux_drive parameters)
          aux_blend size).1
        (0.5 + 0.5 * out_drive parameters) out_blend size).2) ∧
    (∀ square' : σsquare → α → α → α → α → Buffer α → Nat → σsquare × Buffer α,
      (Render 2 { C with squareRender := square' } engine parameters out aux size
          already_enveloped).map RenderResult.aux
        = (Render 2 C engine parameters out aux size already_enveloped).map RenderResult.aux) ∧
    (SquareRenderOverwrites C → OverdriveProcessesBlock C → OverdriveStateIgnoresSamples C →
      ∀ saw' : σsaw → α → α → α → Buffer α → Nat → σsaw × Buffer α,
      ∃ r r' : RenderResult α σsaw σsquare σdrive,
        Render 2 C engine parameters out aux size already_enveloped = some r ∧
        Render 2 { C with sawRender := saw' } engine parameters out aux size
          already_enveloped = some r' ∧
        ∀ i, i < size → r'.out i = r.out i) := by
  intro primary_f auxiliary_f saw1 saw2 square1 square2
  refine ⟨?_, ?_, ?_⟩
  · obtain ⟨r, hr, haux, hout, _⟩ :=
      Render_eq C engine parameters out aux size already_enveloped detuning hdet
    refine ⟨r, crossfade saw2 saw1 size, crossfade square2 square1 size, hr, ?_, ?_, haux, hout⟩
    · intro i hi
      rw [crossfade_apply, if_pos hi]
      ring
    · intro i hi
      rw [crossfade_apply, if_pos hi]
      ring
  · intro square'
    obtain ⟨r, hr, haux, _, _⟩ :=
      Render_eq C engine parameters out aux size already_enveloped detuning hdet
    obtain ⟨r', hr', haux', _, _⟩ :=
      Render_eq { C with squareRender := square' } engine parameters out aux size
        already_enveloped detuning hdet
    rw [hr, hr', Option.map_some', Option.map_some', haux, haux']
  · intro hsq hblock hstate saw'
    obtain ⟨r, hr, _, hout, _⟩ :=
      Render_eq C engine parameters out aux size already_enveloped detuning hdet
    obtain ⟨r', hr', _, hout', _⟩ :=
      Render_eq { C with sawRender := saw' } engine parameters out aux size
        already_enveloped detuning hdet
    refine ⟨r, r', hr, hr', ?_⟩
    intro i hi
    rw [hout, hout']
    simp only
    rw [hstate _ _ _ (crossfade saw2 saw1 size)]
    apply hblock _ _ _ _ _ _ i hi
    intro j hj
    rw [crossfade_apply, crossfade_apply, if_pos hj, if_pos hj]
    rw [hsq _ _ _ _ _ _ saw1 size j hj]

theorem SquareRenderOverwrites_sample : SquareRenderOverwrites sampleCollaborators := by
  intro s f0 f pw shape b b' size i hi
  simp [sampleCollaborators, hi]

theorem OverdriveProcessesBlock_sample : OverdriveProcessesBlock sampleCollaborators := by
  intro s drive b b' size hb i hi
  simp [sampleCollaborators, hi, hb i hi]

theorem OverdriveStateIgnoresSamples_sample :
    OverdriveStateIgnoresSamples sampleCollaborators := by
  intro s drive b b' size
  rfl

/-- An instance of `Render_blend`: the sample collaborators, a block of four samples,
stale content in both buffers; the saw replaced is the constant one. -/
theorem Render_blend_witness :
    ComputeDetuning sampleParameters.harmonics = some 0 ∧
      SquareRenderOverwrites sampleCollaborators ∧
      OverdriveProcessesBlock sampleCollaborators ∧
      OverdriveStateIgnoresSamples sampleCollaborators ∧
      ∃ r r' : RenderResult ℚ Nat Nat Nat,
        Render 2 sampleCollaborators sampleEngine sampleParameters sampleStale sampleStale 4
          false = some r ∧
        Render 2 { sampleCollaborators with sawRender := sampleFlatSaw } sampleEngine
          sampleParameters sampleStale sampleStale 4 false = some r' ∧
        ∀ i, i < 4 → r'.out i = r.out i :=
  ⟨ComputeDetuning_centre, SquareRenderOverwrites_sample, OverdriveProcessesBlock_sample,
    OverdriveStateIgnoresSamples_sample,
    (Render_blend sampleCollaborators sampleEngine sampleParameters sampleStale sampleStale 4
      false 0 ComputeDetuning_centre).2.2 SquareRenderOverwrites_sample
      OverdriveProcessesBlock_sample OverdriveStateIgnoresSamples_sample sampleFlatSaw⟩

/-- C9 (as amended): `Render` never writes the flag `*already_enveloped`: after any call
the flag holds the value the caller gave it, so it is false after the call when the
caller set it to false before the call. -/
theorem Render_leaves_already_enveloped [FloorRing α] {σsaw σsquare σdrive : Type}
    (VA_VARIANT : Nat) (C : Collaborators α σsaw σsquare σdrive)
    (engine : VirtualAnalogModSquare α σsaw σsquare σdrive)
    (parameters : EngineParameters α) (out aux : Buffer α) (size : Nat)
    (already_enveloped : Bool) :
    ∃ r : RenderResult α σsaw σsquare σdrive,
      Render VA_VARIANT C engine parameters out aux size already_enveloped = some r ∧
      r.already_enveloped = already_enveloped := by
  by_cases hv : VA_VARIANT = 2
  · subst hv
    obtain ⟨r, hr, _, _, hflag⟩ := Render_eq C engine parameters out aux size
      already_enveloped _ (ComputeDetuning_eq parameters.harmonics)
    exact ⟨r, hr, hflag⟩
  · unfold Render
    rw [if_neg hv]
    exact ⟨_, rfl, rfl⟩

/-- C9, the claim as stated fails: a caller whose flag is true finds it true after
`Render`. -/
theorem Render_already_enveloped_stays_true :
    (Render 2 sampleCollaborators sampleEngine sampleParameters sampleStale sampleStale 4
      true).map RenderResult.already_enveloped = some true := by
  obtain ⟨r, hr, _, _, hflag⟩ := Render_eq sampleCollaborators sampleEngine sampleParameters
    sampleStale sampleStale 4 true 0 ComputeDetuning_centre
  rw [hr, Option.map_some', hflag]

/-- C10 (as amended): for every parameter value, also with `timbre` outside `[0, 1]`,
the saw pulse width lies in `[0.005, 1]`, the saw shape in `[0, 1]` and the square
pulse width in `[0.005, 0.5]`; the drive amount `0.5 + 0.5 * (morph * 3)` is not
clamped, and lies in `[0.5, 2]` when `morph` lies in `[0, 1]`. -/
theorem Render_controls_in_range (parameters : EngineParameters α) :
    (0.005 ≤ saw_pw parameters ∧ saw_pw parameters ≤ 1) ∧
      (0 ≤ saw_shape parameters ∧ saw_shape parameters ≤ 1) ∧
      (0.005 ≤ square_pw parameters ∧ square_pw parameters ≤ 0.5) ∧
      (0 ≤ parameters.morph → parameters.morph ≤ 1 →
        (0.5 ≤ 0.5 + 0.5 * aux_drive parameters ∧ 0.5 + 0.5 * aux_drive parameters ≤ 2) ∧
        (0.5 ≤ 0.5 + 0.5 * out_drive parameters ∧ 0.5 + 0.5 * out_drive parameters ≤ 2)) := by
  refine ⟨?_, ?_, ?_, ?_⟩
  · have := CONSTRAIN_mem (parameters.timbre / 2.0 * 1.1) (0.005 : α) 1.0 (by norm_num)
    unfold saw_pw
    norm_num at this ⊢
    exact this
  · have := CONSTRAIN_mem (10.0 - 21.0 * parameters.timbre) (0.0 : α) 1.0 (by norm_num)
    unfold saw_shape
    norm_num at this ⊢
    exact this
  · have := CONSTRAIN_mem (parameters.timbre * 1.1 / 2.0) (0.005 : α) 0.5 (by norm_num)
    unfold square_pw
    norm_num at this ⊢
    exact this
  · intro h0 h1
    unfold aux_drive out_drive
    norm_num
    constructor <;> linarith

/-- An instance of `Render_controls_in_range`: the sample parameters, whose `morph` is
`0`. -/
theorem Render_controls_in_range_witness :
    (0 : ℚ) ≤ sampleParameters.morph ∧ sampleParameters.morph ≤ 1 ∧
      (0.5 ≤ 0.5 + 0.5 * aux_drive sampleParameters ∧
        0.5 + 0.5 * aux_drive sampleParameters ≤ 2) ∧
      (0.5 ≤ 0.5 + 0.5 * out_drive sampleParameters ∧
        0.5 + 0.5 * out_drive sampleParameters ≤ 2) :=
  ⟨by norm_num [sampleParameters], by norm_num [sampleParameters],
    (Render_controls_in_range sampleParameters).2.2.2 (by norm_num [sampleParameters])
      (by norm_num [sampleParameters])⟩

/-- C10, the claim as stated fails: no finite interval holds the drive amount for every
parameter value. -/
theorem Render_drive_unbounded :
    ¬ ∃ lo hi : ℚ, ∀ parameters : EngineParameters ℚ,
      lo ≤ 0.5 + 0.5 * aux_drive parameters ∧ 0.5 + 0.5 * aux_drive parameters ≤ hi := by
  rintro ⟨lo, hi, h⟩
  have h1 := (h ⟨0, 0, 0, 0⟩).2
  have h2 := (h ⟨0, 0, 0, hi⟩).2
  unfold aux_drive at h1 h2
  norm_num at h1 h2
  linarith

/-! ## Render: buffers -/

theorem SawRenderOverwrites_sample : SawRenderOverwrites sampleCollaborators := by
  intro s f pw shape b b' size i hi
  simp [sampleCollaborators, hi]

theorem OverdriveStateReadsBlock_sample : OverdriveStateReadsBlock sampleCollaborators := by
  intro s drive b b' size _
  rfl

theorem WriteBlockOnly_sample : WriteBlockOnly sampleCollaborators := by
  refine ⟨?_, ?_, ?_⟩
  · intro s f pw shape b size i hi
    simp [sampleCollaborators, Nat.not_lt.mpr hi]
  · intro s f0 f pw shape b size i hi
    simp [sampleCollaborators, Nat.not_lt.mpr hi]
  · intro s drive b size i hi
    simp [sampleCollaborators, Nat.not_lt.mpr hi]

/-- The scratch buffer `Render` leaves in the engine in the configuration
`VA_VARIANT == 2`: the block of the first square oscillator. -/
theorem Render_temp_buffer [FloorRing α] {σsaw σsquare σdrive : Type}
    (C : Collaborators α σsaw σsquare σdrive)
    (engine : VirtualAnalogModSquare α σsaw σsquare σdrive)
    (parameters : EngineParameters α) (out aux : Buffer α) (size : Nat)
    (already_enveloped : Bool) (detuning : α)
    (hdet : ComputeDetuning parameters.harmonics = some detuning) :
    ∃ r : RenderResult α σsaw σsquare σdrive,
      Render 2 C engine parameters out aux size already_enveloped = some r ∧
      r.engine.temp_buffer_ = (C.squareRender engine.square1_ (C.NoteToFrequency parameters.note)
        (C.NoteToFrequency parameters.note) (square_pw parameters) 1.0
        engine.temp_buffer_ size).2 := by
  unfold Render
  rw [if_pos rfl, hdet]
  exact ⟨_, rfl, rfl⟩

/-- C11: in the configuration `VA_VARIANT == 2`, when each oscillator writes every sample
of its block and the overdrive reads the block it is given only, `Render` overwrites
the indices below `size` of both output buffers: two runs with the same parameters,
`size` and collaborator states but different contents of `out`, `aux` and the scratch
buffer before the call agree on `out i` and `aux i` for every `i < size`. -/
theorem Render_overwrites_block [FloorRing α] {σsaw σsquare σdrive : Type}
    (C : Collaborators α σsaw σsquare σdrive)
    (engine : VirtualAnalogModSquare α σsaw σsquare σdrive)
    (parameters : EngineParameters α) (out aux out' aux' temp' : Buffer α) (size : Nat)
    (already_enveloped : Bool)
    (hsaw : SawRenderOverwrites C) (hsquare : SquareRenderOverwrites C)
    (hblock : OverdriveProcessesBlock C) (hstate : OverdriveStateReadsBlock C) :
    ∃ r r' : RenderResult α σsaw σsquare σdrive,
      Render 2 C engine parameters out aux size already_enveloped = some r ∧
      Render 2 C { engine with temp_buffer_ := temp' } parameters out' aux' size
        already_enveloped = some r' ∧
      ∀ i, i < size → r.out i = r'.out i ∧ r.aux i = r'.aux i := by
  obtain ⟨r, hr, haux, hout, _⟩ := Render_eq C engine parameters out aux size
    already_enveloped _ (ComputeDetuning_eq parameters.harmonics)
  obtain ⟨r', hr', haux', hout', _⟩ := Render_eq C { engine with temp_buffer_ := temp' }
    parameters out' aux' size already_enveloped _ (ComputeDetuning_eq parameters.harmonics)
  refine ⟨r, r', hr, hr', ?_⟩
  have hmix : ∀ j, j < size →
      crossfade
          (C.sawRender engine.saw2_ (C.NoteToFrequency (parameters.note +
            detuneCurve (detuneScaled parameters.harmonics) * detuneSign parameters.harmonics))
            (saw_pw parameters) (saw_shape parameters) aux size).2
          (C.sawRender engine.saw1_ (C.NoteToFrequency parameters.note)
            (saw_pw parameters) (saw_shape parameters) out size).2 size j
        = crossfade
          (C.sawRender engine.saw2_ (C.NoteToFrequency (parameters.note +
            detuneCurve (detuneScaled parameters.harmonics) * detuneSign parameters.harmonics))
            (saw_pw parameters) (saw_shape parameters) aux' size).2
          (C.sawRender engine.saw1_ (C.NoteToFrequency parameters.note)
            (saw_pw parameters) (saw_shape parameters) out' size).2 size j := by
    intro j hj
    rw [crossfade_apply, crossfade_apply, if_pos hj, if_pos hj]
    exact congrArg₂ (fun a b : α => a * 0.5 + b * 0.5) (hsaw _ _ _ _ _ _ size j hj)
      (hsaw _ _ _ _ _ _ size j hj)
  intro i hi
  constructor
  · rw [hout, hout']
    simp only
    rw [hstate _ _ _ _ size hmix]
    apply hblock _ _ _ _ _ _ i hi
    intro j hj
    rw [crossfade_apply, crossfade_apply, if_pos hj, if_pos hj]
    exact congrArg₂ (fun a b : α => a * 0.5 + b * 0.5) (hsquare _ _ _ _ _ _ _ size j hj)
      (hsquare _ _ _ _ _ _ _ size j hj)
  · rw [haux, haux']
    exact hblock _ _ _ _ _ hmix i hi

/-- An instance of `Render_overwrites_block`: the sample collaborators, a block of four
samples, and two different stale contents. -/
theorem Render_overwrites_block_witness :
    SawRenderOverwrites sampleCollaborators ∧ SquareRenderOverwrites sampleCollaborators ∧
      OverdriveProcessesBlock sampleCollaborators ∧
      OverdriveStateReadsBlock sampleCollaborators ∧
      ∃ r r' : RenderResult ℚ Nat Nat Nat,
        Render 2 sampleCollaborators sampleEngine sampleParameters sampleStale sampleStale 4
          false = some r ∧
        Render 2 sampleCollaborators { sampleEngine with temp_buffer_ := sampleStale }
          sampleParameters sampleOtherStale sampleOtherStale 4 false = some r' ∧
        ∀ i, i < 4 → r.out i = r'.out i ∧ r.aux i = r'.aux i :=
  ⟨SawRenderOverwrites_sample, SquareRenderOverwrites_sample, OverdriveProcessesBlock_sample,
    OverdriveStateReadsBlock_sample,
    Render_overwrites_block sampleCollaborators sampleEngine sampleParameters sampleStale
      sampleStale sampleOtherStale sampleOtherStale sampleStale 4 false SawRenderOverwrites_sample
      SquareRenderOverwrites_sample OverdriveProcessesBlock_sample
      OverdriveStateReadsBlock_sample⟩

/-- C12: `Render` writes the indices below `size` only. The cross-fade loop leaves
every sample from index `size` on as it was, and with `size = 0` it runs no iteration;
when the collaborators write the first `size` samples of their buffer only, `Render`
(`VA_VARIANT == 2`) leaves `out i`, `aux i` and the scratch sample `i` unchanged for every
`i ≥ size`, and with `size = 0` leaves the three buffers as they were. -/
theorem Render_writes_block_only [FloorRing α] {σsaw σsquare σdrive : Type}
    (C : Collaborators α σsaw σsquare σdrive)
    (engine : VirtualAnalogModSquare α σsaw σsquare σdrive)
    (parameters : EngineParameters α) (out aux : Buffer α) (size : Nat)
    (already_enveloped : Bool) (hwrite : WriteBlockOnly C) :
    (∀ (dst src : Buffer α) (i : Nat), size ≤ i → crossfade dst src size i = dst i) ∧
      (∀ dst src : Buffer α, crossfade dst src 0 = dst) ∧
      ∃ r : RenderResult α σsaw σsquare σdrive,
        Render 2 C engine parameters out aux size already_enveloped = some r ∧
        (∀ i, size ≤ i → r.out i = out i ∧ r.aux i = aux i ∧
          r.engine.temp_buffer_ i = engine.temp_buffer_ i) ∧
        (size = 0 → r.out = out ∧ r.aux = aux ∧
          r.engine.temp_buffer_ = engine.temp_buffer_) := by
  obtain ⟨hwsaw, hwsquare, hwdrive⟩ := hwrite
  have hloop : ∀ (dst src : Buffer α) (i : Nat), size ≤ i → crossfade dst src size i = dst i := by
    intro dst src i hi
    rw [crossfade_apply, if_neg (Nat.not_lt.mpr hi)]
  obtain ⟨r, hr, haux, hout, _⟩ := Render_eq C engine parameters out aux size
    already_enveloped _ (ComputeDetuning_eq parameters.harmonics)
  obtain ⟨r2, hr2, htemp⟩ := Render_temp_buffer C engine parameters out aux size
    already_enveloped _ (ComputeDetuning_eq parameters.harmonics)
  have hrr : r2 = r := Option.some.inj (hr2.symm.trans hr)
  rw [hrr] at htemp
  have hframe : ∀ i, size ≤ i → r.out i = out i ∧ r.aux i = aux i ∧
      r.engine.temp_buffer_ i = engine.temp_buffer_ i := by
    intro i hi
    refine ⟨?_, ?_, ?_⟩
    · rw [hout, hwdrive _ _ _ size i hi, hloop _ _ i hi, hwsquare _ _ _ _ _ _ size i hi,
        hwsaw _ _ _ _ _ size i hi]
    · rw [haux, hwdrive _ _ _ size i hi, hloop _ _ i hi, hwsaw _ _ _ _ _ size i hi]
    · rw [htemp, hwsquare _ _ _ _ _ _ size i hi]
  refine ⟨hloop, fun dst src => rfl, r, hr, hframe, ?_⟩
  intro h0
  refine ⟨?_, ?_, ?_⟩
  · funext i
    exact (hframe i (by omega)).1
  · funext i
    exact (hframe i (by omega)).2.1
  · funext i
    exact (hframe i (by omega)).2.2

/-- An instance of `Render_writes_block_only`: the sample collaborators and an empty
block. -/
theorem Render_writes_block_only_witness :
    WriteBlockOnly sampleCollaborators ∧ (0 : Nat) = 0 ∧
      ∃ r : RenderResult ℚ Nat Nat Nat,
        Render 2 sampleCollaborators sampleEngine sampleParameters sampleStale
          sampleOtherStale 0 false = some r ∧
        r.out = sampleStale ∧ r.aux = sampleOtherStale ∧
        r.engine.temp_buffer_ = sampleEngine.temp_buffer_ := by
  obtain ⟨_, _, r, hr, _, hzero⟩ := Render_writes_block_only sampleCollaborators sampleEngine
    sampleParameters sampleStale sampleOtherStale 0 false WriteBlockOnly_sample
  exact ⟨WriteBlockOnly_sample, rfl, r, hr, hzero rfl⟩

/-- C13: for every `morph` the drive amounts `Render` passes to the overdrive for `aux`
and for `out` are equal, and both are `0.5 + 1.5 * morph`: `Render` (`VA_VARIANT == 2`)
returns the overdrive applied with that amount both times. With `morph = 0` the
amount is `0.5`, with `morph = 1/3` it is exactly `1`. -/
theorem Render_drive_amount [FloorRing α] {σsaw σsquare σdrive : Type}
    (C : Collaborators α σsaw σsquare σdrive)
    (engine : VirtualAnalogModSquare α σsaw σsquare σdrive)
    (parameters : EngineParameters α) (out aux : Buffer α) (size : Nat)
    (already_enveloped : Bool) :
    0.5 + 0.5 * aux_drive parameters = 0.5 + 0.5 * out_drive parameters ∧
      0.5 + 0.5 * aux_drive parameters = 0.5 + 1.5 * parameters.morph ∧
      0.5 + 0.5 * out_drive parameters = 0.5 + 1.5 * parameters.morph ∧
      (0.5 : α) + 0.5 * aux_drive { parameters with morph := 0 } = 0.5 ∧
      (0.5 : α) + 0.5 * aux_drive { parameters with morph := 1 / 3 } = 1.0 ∧
      (0.5 : α) + 0.5 * out_drive { parameters with morph := 1 / 3 } = 1.0 ∧
      ∃ (detuning : α) (r : RenderResult α σsaw σsquare σdrive),
        ComputeDetuning parameters.harmonics = some detuning ∧
        Render 2 C engine parameters out aux size already_enveloped = some r ∧
        r.aux = (C.overdriveProcess engine.overdrive_ (0.5 + 1.5 * parameters.morph)
          (crossfade
            (C.sawRender engine.saw2_ (C.NoteToFrequency (parameters.note + detuning))
              (saw_pw parameters) (saw_shape parameters) aux size).2
            (C.sawRender engine.saw1_ (C.NoteToFrequency parameters.note)
              (saw_pw parameters) (saw_shape parameters) out size).2 size) size).2 ∧
        r.out = (C.overdriveProcess
          (C.overdriveProcess engine.overdrive_ (0.5 + 1.5 * parameters.morph)
            (crossfade
              (C.sawRender engine.saw2_ (C.NoteToFrequency (parameters.note + detuning))
                (saw_pw parameters) (saw_shape parameters) aux size).2
              (C.sawRender engine.saw1_ (C.NoteToFrequency parameters.note)
                (saw_pw parameters) (saw_shape parameters) out size).2 size) size).1
          (0.5 + 1.5 * parameters.morph)
          (crossfade
            (C.squareRender engine.square2_ (C.NoteToFrequency (parameters.note + detuning))
              (C.NoteToFrequency (parameters.note + detuning)) (square_pw parameters) 1.0
              (C.sawRender engine.saw1_ (C.NoteToFrequency parameters.note)
                (saw_pw parameters) (saw_shape parameters) out size).2 size).2
            (C.squareRender engine.square1_ (C.NoteToFrequency parameters.note)
              (C.NoteToFrequency parameters.note) (square_pw parameters) 1.0
              engine.temp_buffer_ size).2 size) size).2 := by
  have ha : (0.5 : α) + 0.5 * aux_drive parameters = 0.5 + 1.5 * parameters.morph := by
    unfold aux_drive
    norm_num
    ring
  have ho : (0.5 : α) + 0.5 * out_drive parameters = 0.5 + 1.5 * parameters.morph := by
    unfold out_drive
    norm_num
    ring
  refine ⟨ha.trans ho.symm, ha, ho, ?_, ?_, ?_, ?_⟩
  · unfold aux_drive
    norm_num
  · unfold aux_drive
    norm_num
  · unfold out_drive
    norm_num
  · obtain ⟨r, hr, haux, hout, _⟩ := Render_eq C engine parameters out aux size
      already_enveloped _ (ComputeDetuning_eq parameters.harmonics)
    rw [ha] at haux hout
    rw [ho] at hout
    exact ⟨_, r, ComputeDetuning_eq parameters.harmonics, hr, haux, hout⟩

/-- C14: for every `timbre` the saw pulse width of `Render` is
`clamp (0.55 * timbre) 0.005 1.0` and the square pulse width is
`clamp (0.55 * timbre) 0.005 0.5`; at `timbre = 0.5` both are `0.275`. -/
theorem Render_pulse_widths (parameters : EngineParameters α) :
    saw_pw parameters = CONSTRAIN (0.55 * parameters.timbre) 0.005 1.0 ∧
      square_pw parameters = CONSTRAIN (0.55 * parameters.timbre) 0.005 0.5 ∧
      saw_pw { parameters with timbre := 0.5 } = 0.275 ∧
      square_pw { parameters with timbre := 0.5 } = 0.275 := by
  have e1 : parameters.timbre / 2.0 * 1.1 = 0.55 * parameters.timbre := by
    norm_num
    ring
  have e2 : parameters.timbre * 1.1 / 2.0 = 0.55 * parameters.timbre := by
    norm_num
    ring
  refine ⟨?_, ?_, ?_, ?_⟩
  · unfold saw_pw
    rw [e1]
  · unfold square_pw
    rw [e2]
  · unfold saw_pw CONSTRAIN
    norm_num
  · unfold square_pw CONSTRAIN
    norm_num

/-- C15: with `harmonics = 0.5`, for every note and every frequency mapping, the detuning
`Render` computes is `0` and the auxiliary frequency
`NoteToFrequency (note + ComputeDetuning 0.5)` equals the primary frequency
`NoteToFrequency note`. -/
theorem Render_unison_frequencies [FloorRing α] {σsaw σsquare σdrive : Type}
    (C : Collaborators α σsaw σsquare σdrive) (parameters : EngineParameters α)
    (hcentre : parameters.harmonics = 0.5) :
    ∃ auxiliary_detune : α, ComputeDetuning parameters.harmonics = some auxiliary_detune ∧
      C.NoteToFrequency (parameters.note + auxiliary_detune)
        = C.NoteToFrequency parameters.note := by
  refine ⟨0, ?_, ?_⟩
  · rw [hcentre]
    exact ComputeDetuning_centre
  · rw [add_zero]

/-- An instance of `Render_unison_frequencies`: the sample collaborators and the sample
parameters, whose `harmonics` is `0.5`. -/
theorem Render_unison_frequencies_witness :
    sampleParameters.harmonics = 0.5 ∧
      ∃ auxiliary_detune : ℚ,
        ComputeDetuning sampleParameters.harmonics = some auxiliary_detune ∧
        sampleCollaborators.NoteToFrequency (sampleParameters.note + auxiliary_detune)
          = sampleCollaborators.NoteToFrequency sampleParameters.note :=
  ⟨rfl, Render_unison_frequencies sampleCollaborators sampleParameters rfl⟩

/-- C16: when the two saw renders of `Render` (`VA_VARIANT == 2`) leave identical blocks,
the cross-faded `aux` handed to the overdrive equals the single saw block at every
index below `size`: `0.5 * x + 0.5 * x = x`. -/
theorem Render_blend_identical_saws [FloorRing α] {σsaw σsquare σdrive : Type}
    (C : Collaborators α σsaw σsquare σdrive)
    (engine : VirtualAnalogModSquare α σsaw σsquare σdrive)
    (parameters : EngineParameters α) (out aux : Buffer α) (size : Nat)
    (already_enveloped : Bool) (detuning : α)
    (hdet : ComputeDetuning parameters.harmonics = some detuning)
    (hsame : ∀ i, i < size →
      (C.sawRender engine.saw2_ (C.NoteToFrequency (parameters.note + detuning))
          (saw_pw parameters) (saw_shape parameters) aux size).2 i
        = (C.sawRender engine.saw1_ (C.NoteToFrequency parameters.note)
          (saw_pw parameters) (saw_shape parameters) out size).2 i) :
    ∃ (r : RenderResult α σsaw σsquare σdrive) (aux_blend : Buffer α),
      Render 2 C engine parameters out aux size already_enveloped = some r ∧
      r.aux = (C.overdriveProcess engine.overdrive_ (0.5 + 0.5 * aux_drive parameters)
        aux_blend size).2 ∧
      aux_blend = crossfade
        (C.sawRender engine.saw2_ (C.NoteToFrequency (parameters.note + detuning))
          (saw_pw parameters) (saw_shape parameters) aux size).2
        (C.sawRender engine.saw1_ (C.NoteToFrequency parameters.note)
          (saw_pw parameters) (saw_shape parameters) out size).2 size ∧
      ∀ i, i < size → aux_blend i
        = (C.sawRender engine.saw1_ (C.NoteToFrequency parameters.note)
          (saw_pw parameters) (saw_shape parameters) out size).2 i := by
  obtain ⟨r, hr, haux, _, _⟩ := Render_eq C engine parameters out aux size
    already_enveloped detuning hdet
  refine ⟨r, _, hr, haux, rfl, ?_⟩
  intro i hi
  rw [crossfade_apply, if_pos hi, hsame i hi]
  norm_num
  ring

/-- An instance of `Render_blend_identical_saws`: the sample collaborators with
`harmonics = 0.5`, both saws starting from the same count and the same buffer content. -/
theorem Render_blend_identical_saws_witness :
    ComputeDetuning sampleParameters.harmonics = some 0 ∧
      ∃ (r : RenderResult ℚ Nat Nat Nat) (aux_blend : Buffer ℚ),
        Render 2 sampleCollaborators sampleEngine sampleParameters sampleStale sampleStale 4
          false = some r ∧
        r.aux = (sampleCollaborators.overdriveProcess sampleEngine.overdrive_
          (0.5 + 0.5 * aux_drive sampleParameters) aux_blend 4).2 ∧
        ∀ i, i < 4 → aux_blend i
          = (sampleCollaborators.sawRender sampleEngine.saw1_
            (sampleCollaborators.NoteToFrequency sampleParameters.note)
            (saw_pw sampleParameters) (saw_shape sampleParameters) sampleStale 4).2 i := by
  obtain ⟨r, aux_blend, hr, haux, _, hblend⟩ := Render_blend_identical_saws
    sampleCollaborators sampleEngine sampleParameters sampleStale sampleStale 4 false 0
    ComputeDetuning_centre (by
      intro i _
      simp [sampleEngine])
  exact ⟨ComputeDetuning_centre, r, aux_blend, hr, haux, hblend⟩

/-! ## Render: the timbre controls -/

theorem saw_shape_eq_max_min (parameters : EngineParameters α) :
    saw_shape parameters = max 0 (min (10 - 21 * parameters.timbre) 1) := by
  unfold saw_shape
  rw [CONSTRAIN_eq_max_min _ _ _ (by norm_num)]
  norm_num

theorem saw_shape_of_le {parameters : EngineParameters α} (h : parameters.timbre ≤ 3 / 7) :
    saw_shape parameters = 1 := by
  rw [saw_shape_eq_max_min, min_eq_right (by linarith), max_eq_right zero_le_one]

theorem saw_shape_of_ge {parameters : EngineParameters α} (h : 10 / 21 ≤ parameters.timbre) :
    saw_shape parameters = 0 := by
  rw [saw_shape_eq_max_min, min_eq_left (by linarith), max_eq_left (by linarith)]

theorem saw_shape_of_mem {parameters : EngineParameters α} (h1 : 3 / 7 < parameters.timbre)
    (h2 : parameters.timbre < 10 / 21) :
    saw_shape parameters = 10 - 21 * parameters.timbre := by
  rw [saw_shape_eq_max_min, min_eq_left (by linarith), max_eq_right (by linarith)]

/-- C17 (as amended): in exact arithmetic, the saw shape control of `Render` is
`clamp (10 - 21 * timbre) 0 1` for every `timbre`: it is exactly `1` for
`timbre ≤ 3/7`, exactly `0` for `timbre ≥ 10/21`, and
strictly between `0` and `1` exactly for `timbre` in the open interval `(3/7, 10/21)`,
where it is strictly decreasing in `timbre`. -/
theorem Render_saw_shape (p q : EngineParameters α) :
    saw_shape p = CONSTRAIN (10 - 21 * p.timbre) 0 1 ∧
      (p.timbre ≤ 3 / 7 → saw_shape p = 1) ∧
      (10 / 21 ≤ p.timbre → saw_shape p = 0) ∧
      ((0 < saw_shape p ∧ saw_shape p < 1) ↔ (3 / 7 < p.timbre ∧ p.timbre < 10 / 21)) ∧
      (3 / 7 < p.timbre → p.timbre < q.timbre → q.timbre < 10 / 21 →
        saw_shape q < saw_shape p) := by
  refine ⟨?_, saw_shape_of_le, saw_shape_of_ge, ?_, ?_⟩
  · unfold saw_shape
    norm_num
  · constructor
    · rintro ⟨h0, h1⟩
      constructor
      · by_contra hle
        rw [saw_shape_of_le (not_lt.mp hle)] at h1
        exact lt_irrefl _ h1
      · by_contra hge
        rw [saw_shape_of_ge (not_lt.mp hge)] at h0
        exact lt_irrefl _ h0
    · rintro ⟨h1, h2⟩
      rw [saw_shape_of_mem h1 h2]
      constructor <;> linarith
  · intro h1 h12 h2
    rw [saw_shape_of_mem h1 (lt_trans h12 h2), saw_shape_of_mem (lt_trans h1 h12) h2]
    linarith

/-- An instance of `Render_saw_shape`: `timbre = 0.44` and `timbre = 0.46`, both inside
`(3/7, 10/21)`. -/
theorem Render_saw_shape_witness :
    (3 / 7 : ℚ) < ({ sampleParameters with timbre := 0.44 } : EngineParameters ℚ).timbre ∧
      ({ sampleParameters with timbre := 0.44 } : EngineParameters ℚ).timbre
        < ({ sampleParameters with timbre := 0.46 } : EngineParameters ℚ).timbre ∧
      ({ sampleParameters with timbre := 0.46 } : EngineParameters ℚ).timbre < 10 / 21 ∧
      saw_shape ({ sampleParameters with timbre := 0.46 } : EngineParameters ℚ)
        < saw_shape ({ sampleParameters with timbre := 0.44 } : EngineParameters ℚ) :=
  ⟨by norm_num, by norm_num, by norm_num,
    (Render_saw_shape { sampleParameters with timbre := 0.44 }
      { sampleParameters with timbre := 0.46 }).2.2.2.2 (by norm_num) (by norm_num)
      (by norm_num)⟩

theorem pulse_widths_eq_max_min (parameters : EngineParameters α) :
    saw_pw parameters = max 0.005 (min (0.55 * parameters.timbre) 1) ∧
      square_pw parameters = max 0.005 (min (0.55 * parameters.timbre) 0.5) := by
  have e1 : parameters.timbre / 2.0 * 1.1 = 0.55 * parameters.timbre := by
    norm_num
    ring
  have e2 : parameters.timbre * 1.1 / 2.0 = 0.55 * parameters.timbre := by
    norm_num
    ring
  constructor
  · unfold saw_pw
    rw [e1, CONSTRAIN_eq_max_min _ _ _ (by norm_num)]
    norm_num
  · unfold square_pw
    rw [e2, CONSTRAIN_eq_max_min _ _ _ (by norm_num)]

theorem pulse_widths_of_le {parameters : EngineParameters α}
    (h : parameters.timbre ≤ 10 / 11) : square_pw parameters = saw_pw parameters := by
  have hx : (0.55 : α) * parameters.timbre ≤ 0.5 := by
    norm_num
    linarith
  have hhalf : (0.5 : α) ≤ 1 := by norm_num
  rw [(pulse_widths_eq_max_min parameters).1, (pulse_widths_eq_max_min parameters).2,
    min_eq_left hx, min_eq_left (le_trans hx hhalf)]

theorem pulse_widths_of_gt {parameters : EngineParameters α}
    (h : 10 / 11 < parameters.timbre) :
    square_pw parameters = 0.5 ∧ 0.5 < saw_pw parameters := by
  have hx : (0.5 : α) < 0.55 * parameters.timbre := by
    norm_num
    linarith
  have hhalf : (0.5 : α) < 1 := by norm_num
  rw [(pulse_widths_eq_max_min parameters).1, (pulse_widths_eq_max_min parameters).2,
    min_eq_right hx.le]
  constructor
  · exact max_eq_right (by norm_num)
  · exact lt_of_lt_of_le (lt_min hx hhalf) (le_max_right _ _)

/-! ## ComputeDetuning: bound and dead zones -/

theorem ComputeDetuning_congr [FloorRing α] {x y : α}
    (h : detuneConstrained x = detuneConstrained y) : ComputeDetuning x = ComputeDetuning y := by
  rw [ComputeDetuning_eq, ComputeDetuning_eq]
  simp only [detuneScaled, detuneSign, h]

theorem detuneConstrained_of_le {h : α} (hh : h ≤ 0.025 / 2.05) : detuneConstrained h = -1 := by
  have h1 : h * 2.05 ≤ 0.025 := (le_div_iff₀ (by norm_num)).mp hh
  have h2 : (2.05 : α) * h - 1.025 ≤ -1 := by
    norm_num at h1 ⊢
    linarith
  rw [detuneConstrained_eq_max_min, min_eq_left (by linarith), max_eq_left h2]

theorem detuneConstrained_of_ge {h : α} (hh : 2.025 / 2.05 ≤ h) : detuneConstrained h = 1 := by
  have h1 : 2.025 ≤ h * 2.05 := (div_le_iff₀ (by norm_num)).mp hh
  have h2 : (1 : α) ≤ 2.05 * h - 1.025 := by
    norm_num at h1 ⊢
    linarith
  rw [detuneConstrained_eq_max_min, min_eq_right h2, max_eq_right (by norm_num)]

theorem detuneConstrained_zero : detuneConstrained (0 : α) = -1 :=
  detuneConstrained_of_le (by norm_num)

theorem detuneCurve_top_lt : detuneCurve (3.9999 : α) < 24.01 := by
  rw [detuneCurve_top]
  have h0 : (0 : α) ≤ 0.9999 := by norm_num
  have h1 : (0.9999 : α) < 1 := by norm_num
  have hs := Squash_lt_one (Squash_mem h0 h1.le).1 (Squash_lt_one h0 h1)
  norm_num at hs ⊢
  linarith

/-- C18: the top table entry is never attained: for every harmonics value
`ComputeDetuning` returns a value `v` with `|v| < 24.01`; the magnitude is at most
`3.9999`. -/
theorem ComputeDetuning_abs_lt_top [FloorRing α] (h : α) :
    detuneScaled h ≤ 3.9999 ∧
      ∃ v : α, ComputeDetuning h = some v ∧ |v| < 24.01 := by
  refine ⟨(detuneScaled_mem h).2, _, ComputeDetuning_eq h, ?_⟩
  have hle : detuneCurve (detuneScaled h) ≤ detuneCurve (3.9999 : α) :=
    detuneCurve_mono (detuneScaled_mem h).2
  have hlt : detuneCurve (detuneScaled h) < 24.01 := lt_of_le_of_lt hle detuneCurve_top_lt
  have h0 := detuneCurve_nonneg (detuneScaled h)
  rw [abs_lt]
  rcases detuneSign_cases h with hs | hs <;> rw [hs] <;> constructor <;> linarith

/-- C19: `ComputeDetuning` saturates at both ends of the control: for every
`h ≤ 0.025 / 2.05 = 1/82`, negative values included, the result is that of
`ComputeDetuning 0`, and for every `h ≥ 2.025 / 2.05 = 81/82`, values above `1`
included, the result is that of `ComputeDetuning 1`. -/
theorem ComputeDetuning_dead_zones [FloorRing α] (h : α) :
    (0.025 / 2.05 : α) = 1 / 82 ∧ (2.025 / 2.05 : α) = 81 / 82 ∧
      ∃ v0 v1 : α, ComputeDetuning (0 : α) = some v0 ∧ ComputeDetuning (1 : α) = some v1 ∧
        (h ≤ 0.025 / 2.05 → ComputeDetuning h = some v0) ∧
        (2.025 / 2.05 ≤ h → ComputeDetuning h = some v1) := by
  refine ⟨by norm_num, by norm_num, _, _, ComputeDetuning_eq 0, ComputeDetuning_eq 1, ?_, ?_⟩
  · intro hh
    rw [← ComputeDetuning_eq]
    exact ComputeDetuning_congr ((detuneConstrained_of_le hh).trans detuneConstrained_zero.symm)
  · intro hh
    rw [← ComputeDetuning_eq]
    exact ComputeDetuning_congr ((detuneConstrained_of_ge hh).trans detuneConstrained_one.symm)

/-- An instance of `ComputeDetuning_dead_zones`, on the rationals: `-1` is below the lower
dead zone's edge and `2` is above the upper one's. -/
theorem ComputeDetuning_dead_zones_witness :
    (-1 : ℚ) ≤ 0.025 / 2.05 ∧ (2.025 / 2.05 : ℚ) ≤ 2 ∧
      ComputeDetuning (-1 : ℚ) = ComputeDetuning (0 : ℚ) ∧
      ComputeDetuning (2 : ℚ) = ComputeDetuning (1 : ℚ) := by
  have hlo : (-1 : ℚ) ≤ 0.025 / 2.05 := by norm_num
  have hhi : (2.025 / 2.05 : ℚ) ≤ 2 := by norm_num
  obtain ⟨_, _, v0, _, h0, _, hlow, _⟩ := ComputeDetuning_dead_zones (-1 : ℚ)
  obtain ⟨_, _, _, v1, _, h1, _, hhigh⟩ := ComputeDetuning_dead_zones (2 : ℚ)
  exact ⟨hlo, hhi, (hlow hlo).trans h0.symm, (hhigh hhi).trans h1.symm⟩

/-- C20 (as amended): in exact arithmetic, for every `timbre` the square pulse width of
`Render` is at most the saw pulse width, and the two are equal exactly when
`timbre ≤ 10/11`; for `timbre > 10/11` the square pulse width is `0.5` and the saw pulse
width is above `0.5`. -/
theorem Render_pulse_widths_compare (parameters : EngineParameters α) :
    square_pw parameters ≤ saw_pw parameters ∧
      (square_pw parameters = saw_pw parameters ↔ parameters.timbre ≤ 10 / 11) ∧
      (10 / 11 < parameters.timbre →
        square_pw parameters = 0.5 ∧ 0.5 < saw_pw parameters) := by
  refine ⟨?_, ⟨?_, pulse_widths_of_le⟩, pulse_widths_of_gt⟩
  · rw [(pulse_widths_eq_max_min parameters).1, (pulse_widths_eq_max_min parameters).2]
    exact max_le_max le_rfl (min_le_min le_rfl (by norm_num))
  · intro heq
    by_contra hgt
    obtain ⟨h1, h2⟩ := pulse_widths_of_gt (not_le.mp hgt)
    rw [← heq, h1] at h2
    exact lt_irrefl _ h2

/-- An instance of `Render_pulse_widths_compare`: `timbre = 0.95`, above `10/11`. -/
theorem Render_pulse_widths_compare_witness :
    (10 / 11 : ℚ) < ({ sampleParameters with timbre := 0.95 } : EngineParameters ℚ).timbre ∧
      square_pw ({ sampleParameters with timbre := 0.95 } : EngineParameters ℚ) = 0.5 ∧
      0.5 < saw_pw ({ sampleParameters with timbre := 0.95 } : EngineParameters ℚ) :=
  ⟨by norm_num,
    (Render_pulse_widths_compare { sampleParameters with timbre := 0.95 }).2.2 (by norm_num)⟩

/-! ## The claims that fail in binary32 -/

namespace Binary32

/-- C2, the claim as stated fails in binary32: `0.5 + 1/16 = 9/16` and `0.5 - 1/16 = 7/16`
are binary32 values, yet `ComputeDetuning` returns `15526551/4194304` at the first and
`-15526565/4194304` at the second, which is not its negative. The two magnitudes
already differ after `detune = 2.05f * detune - 1.025f`. -/
theorem ComputeDetuning_not_antisymmetric :
    fadd (toFloat 0.5) (1 / 16) = 9 / 16 ∧ fsub (toFloat 0.5) (1 / 16) = 7 / 16 ∧
      toFloat (1 / 16) = 1 / 16 ∧
      toFloat 2.05 = 8598323 / 4194304 ∧ toFloat 1.025 = 8598323 / 8388608 ∧
      detuneConstrained (9 / 16) = 537395 / 4194304 ∧
      detuneConstrained (7 / 16) = -2149581 / 16777216 ∧
      ComputeDetuning (9 / 16) = some (15526551 / 4194304) ∧
      ComputeDetuning (7 / 16) = some (-15526565 / 4194304) ∧
      (15526551 / 4194304 : ℚ) ≠ -(-15526565 / 4194304) := by
  decide!

/-- C17, the claim as stated fails in binary32: the adjacent binary32 timbres
`922747/2097152 < 14763953/33554432`, both inside `(3/7, 10/21)`, give the same saw
shape `199229/262144`, so the shape is not strictly decreasing there; and the binary32
timbre `14380471/33554432`, above `3/7`, gives the shape `1`. -/
theorem saw_shape_not_strictly_decreasing :
    toFloat (922747 / 2097152) = 922747 / 2097152 ∧
      toFloat (14763953 / 33554432) = 14763953 / 33554432 ∧
      (3 / 7 : ℚ) < 922747 / 2097152 ∧ (922747 / 2097152 : ℚ) < 14763953 / 33554432 ∧
      (14763953 / 33554432 : ℚ) < 10 / 21 ∧
      saw_shape { sampleParameters with timbre := 922747 / 2097152 } = 199229 / 262144 ∧
      saw_shape { sampleParameters with timbre := 14763953 / 33554432 } = 199229 / 262144 ∧
      toFloat (14380471 / 33554432) = 14380471 / 33554432 ∧
      (3 / 7 : ℚ) < 14380471 / 33554432 ∧
      saw_shape { sampleParameters with timbre := 14380471 / 33554432 } = 1 := by
  decide!

/-- C20, the claim as stated fails in binary32: at the binary32 timbre
`15252015/16777216`, above `10/11`, the saw pulse width and the square pulse width are
both exactly `0.5`. -/
theorem pulse_widths_equal_above :
    toFloat (15252015 / 16777216) = 15252015 / 16777216 ∧
      (10 / 11 : ℚ) < 15252015 / 16777216 ∧
      toFloat 1.1 = 9227469 / 8388608 ∧
      saw_pw { sampleParameters with timbre := 15252015 / 16777216 } = 1 / 2 ∧
      square_pw { sampleParameters with timbre := 15252015 / 16777216 } = 1 / 2 := by
  decide!

end Binary32

end Plaits
